import Mathlib

/-!
Verification development for the SportBetTrading backend.

The repository is a Node/Express + socket.io proxy for live sports-odds data.
This file gives a shallow embedding of the parts relevant to the spec claims:

* `src/utils/dataTransformer.js` — the pure transformer functions
  `transformSportData`, `transformEventData`, `transformMarket`;
* the REST handlers `GET /api/sport/:sportName` and
  `GET /api/event/:sportName/:eventId` with their time-windowed caches;
* the socket.io subscription handlers (`subscribe_sport`, `subscribe_event`)
  whose per-tick closures fetch upstream and emit updates;
* `getSportTypeId` and the `SPORT_TYPE_IDS` table.

Modelling conventions:
* JavaScript objects with possibly-absent (or otherwise falsy) fields become
  structures with `Option` fields; `none` stands for an absent/falsy field.
* JavaScript objects used as string-keyed dictionaries become insertion-ordered
  association lists, `List (String × α)`.
* Numeric payload values (prices, sizes, volumes, epoch times) are only ever
  copied by the code, never computed with, so they are carried as `Int`.
  A `new Date(v).getTime()` conversion is modelled as the already-parsed
  epoch value.
* Functions that read the wall clock (`new Date().getTime()`, `Date.now()`)
  take an explicit `now : Nat` argument.
* A JavaScript exception inside a `try` block is modelled with `Except`; the
  `catch` wrapper maps it to the structured failure result, as the code does.
* `Array.prototype.sort(cmp)` is modelled by a stable insertion sort
  parameterised by the comparator; the comparator used by the code,
  `a.name.localeCompare(b.name)`, is locale/ICU dependent, so transformer
  functions take it as an explicit parameter `lc` (meaning: `lc a b = true`
  iff `a.localeCompare(b) <= 0` in the runtime).
-/

namespace SBT

/-! ## Association-list helpers (JavaScript objects as string-keyed maps) -/

/-- Lookup in an insertion-ordered association list (JS property read). -/
def alookup {α : Type} : List (String × α) → String → Option α
  | [], _ => none
  | (k', v') :: t, k => if k' = k then some v' else alookup t k

/-- Replace-or-append assignment (JS property write `obj[k] = v`): an existing
key keeps its position, a new key is appended. -/
def aset {α : Type} : List (String × α) → String → α → List (String × α)
  | [], k, v => [(k, v)]
  | (k', v') :: t, k, v => if k' = k then (k, v) :: t else (k', v') :: aset t k v

/-- Update the value stored at key `k` in place (JS mutation of a property of
the stored object); keys and order are unchanged. -/
def updEntry {α : Type} : List (String × α) → String → (α → α) → List (String × α)
  | [], _, _ => []
  | (k', v') :: t, k, f =>
    if k' = k then (k', f v') :: updEntry t k f else (k', v') :: updEntry t k f

/-- Keys of an association list, in order. -/
def keysOf {α : Type} (l : List (String × α)) : List String := l.map (·.1)

/-- JS `String.prototype.includes`: substring test. -/
def containsSub (s pat : String) : Bool :=
  let sl := s.toList
  let pl := pat.toList
  (List.range (sl.length + 1)).any (fun i => decide ((sl.drop i).take pl.length = pl))

/-- JS `String.prototype.toLowerCase`, restricted to ASCII (every string the
code lowercases is compared against ASCII keys). -/
def jsToLower (s : String) : String := String.mk (s.data.map Char.toLower)

/-- Stable insertion of one element for `sortBy` (model of JS `Array.sort`). -/
def insertLe {α : Type} (le : α → α → Bool) (a : α) : List α → List α
  | [] => [a]
  | b :: l => if le a b then a :: b :: l else b :: insertLe le a l

/-- Stable sort by a boolean comparator: model of JS `Array.prototype.sort`
with a consistent comparator (V8 uses a stable sort). Only the permutation
property of the result is relied on in this development. -/
def sortBy {α : Type} (le : α → α → Bool) (l : List α) : List α :=
  l.foldr (insertLe le) []

theorem insertLe_perm {α : Type} (le : α → α → Bool) (a : α) (l : List α) :
    List.Perm (insertLe le a l) (a :: l) := by
  induction l with
  | nil => simp [insertLe]
  | cons b t ih =>
    simp only [insertLe]
    by_cases h : le a b = true
    · simp [h]
    · simp only [h, if_false]
      exact List.Perm.trans (List.Perm.cons b ih) (List.Perm.swap a b t)

theorem sortBy_perm {α : Type} (le : α → α → Bool) (l : List α) :
    List.Perm (sortBy le l) l := by
  induction l with
  | nil => simp [sortBy]
  | cons a t ih =>
    simp only [sortBy, List.foldr]
    exact List.Perm.trans (insertLe_perm le a _) (List.Perm.cons a ih)

/-! ## Raw upstream payloads

The shape of the JSON the upstream odds API returns, as far as the code
inspects it.  `RawData` distinguishes the control-flow relevant top-level
shapes: falsy `data`, falsy `data.result`, a truthy non-array `data.result`
(on which `forEach`/`map` throws a TypeError), and an array of market
records. -/

structure RawPrice where
  price : Option Int
  size : Option Int
  deriving DecidableEq, Repr

structure RawRunner where
  id : Option String
  name : Option String
  status : Option String
  sort : Option Int
  hdp : Option Int
  lastPriceTraded : Option Int
  totalMatched : Option Int
  back : Option (List RawPrice)
  lay : Option (List RawPrice)
  deriving DecidableEq, Repr

structure RawEvent where
  id : Option String
  name : Option String
  venue : Option String
  openDate : Option Int
  deriving DecidableEq, Repr

structure RawCompetition where
  id : Option String
  name : Option String
  deriving DecidableEq, Repr

structure RawMarket where
  id : Option String
  name : Option String
  status : Option String
  inPlay : Option Bool
  matched : Option Int
  numWinners : Option Int
  start : Option Int
  mtype : Option String
  eventTypeId : Option String
  event : Option RawEvent
  competition : Option RawCompetition
  runners : Option (List RawRunner)
  deriving DecidableEq, Repr

inductive RawData where
  /-- `data` itself is falsy. -/
  | noData : RawData
  /-- `data.result` is falsy. -/
  | noResult : RawData
  /-- `data.result` is truthy but not an array: iterating it throws. -/
  | badResult : RawData
  /-- `data.result` is an array of market records. -/
  | result (ms : List RawMarket) : RawData
  deriving DecidableEq, Repr

/-! ## Transformed records (`src/utils/dataTransformer.js`) -/

structure PricePoint where
  price : Option Int
  size : Option Int
  deriving DecidableEq, Repr

structure Runner where
  id : Option String
  name : Option String
  status : Option String
  sortPriority : Option Int
  handicap : Option Int
  lastPriceTraded : Option Int
  totalMatched : Option Int
  backPrices : List PricePoint
  layPrices : List PricePoint
  deriving DecidableEq, Repr

structure Market where
  id : Option String
  name : Option String
  status : Option String
  inPlay : Bool
  totalMatched : Option Int
  numWinners : Option Int
  start : Option Int
  marketType : Option String
  sport : String
  runners : List Runner
  deriving DecidableEq, Repr

/-- `transformMarket` (dataTransformer.js lines 166-206): `null` when the
record has no (truthy) `runners` field, otherwise the field-by-field copy.
The body of its `try` block cannot throw in this typed model, since
`runners`, `back` and `lay` are arrays whenever present. -/
def transformMarket (market : RawMarket) : Option Market :=
  match market.runners with
  | none => none
  | some rs =>
    some
      { id := market.id
        name := market.name
        status := market.status
        inPlay := market.inPlay.getD false
        totalMatched := market.matched
        numWinners := market.numWinners
        start := market.start
        marketType := market.mtype
        sport :=
          if market.eventTypeId = some "1" then "football"
          else if market.eventTypeId = some "2" then "tennis"
          else if market.eventTypeId = some "4" then "cricket"
          else "unknown"
        runners := rs.map (fun runner =>
          { id := runner.id
            name := runner.name
            status := runner.status
            sortPriority := runner.sort
            handicap := runner.hdp
            lastPriceTraded := runner.lastPriceTraded
            totalMatched := runner.totalMatched
            backPrices := (runner.back.map (fun bs =>
              bs.map (fun p => PricePoint.mk p.price p.size))).getD []
            layPrices := (runner.lay.map (fun ls =>
              ls.map (fun p => PricePoint.mk p.price p.size))).getD [] }) }

/-! ## `transformEventData` -/

/-- The `groupedMarkets` object built by `transformEventData`
(dataTransformer.js lines 121-134). -/
structure GroupedMarkets where
  matchOdds : Option Market
  tiedMatch : Option Market
  overUnderMarkets : List Market
  setMarkets : List Market
  gameMarkets : List Market
  otherMarkets : List Market
  deriving DecidableEq, Repr

structure EventInfo where
  id : Option String
  name : Option String
  venue : Option String
  startTime : Option Int
  inPlay : Bool
  competition : Option String
  competitionId : Option String
  deriving DecidableEq, Repr

inductive EventResult where
  | failure (message : String) (sport : String) : EventResult
  | success (sport : String) (event : EventInfo) (markets : List Market)
      (grouped : GroupedMarkets) (timestamp : Nat) : EventResult
  deriving DecidableEq, Repr

/-- The sport name carried by an event transform result. -/
def EventResult.sportOf : EventResult → String
  | .failure _ s => s
  | .success s _ _ _ _ => s

/-- The grouped-markets object of a successful event transform, if any. -/
def EventResult.groupedOf : EventResult → Option GroupedMarkets
  | .failure _ _ => none
  | .success _ _ _ g _ => some g

/-- The markets list of a successful event transform, if any. -/
def EventResult.marketsOf : EventResult → Option (List Market)
  | .failure _ _ => none
  | .success _ _ ms _ _ => some ms

/-- Whether an event transform result is the structured failure shape. -/
def EventResult.isFailure : EventResult → Bool
  | .failure _ _ => true
  | .success _ _ _ _ _ => false

/-- The `m.name?.includes(pat)` test used by the bucket filters: absent name
is falsy. -/
def nameIncludes (m : Market) (pat : String) : Bool :=
  match m.name with
  | some n => containsSub n pat
  | none => false

/-- `transformEventData` (dataTransformer.js lines 103-160).  The first
record supplies the canonical event descriptor (`data.result?.[0] || {}` and
`firstMarket.event || {}` make all fields absent when the list is empty);
all records are transformed and bucketed by name. -/
def transformEventData (data : RawData) (sportName : String) (now : Nat) :
    EventResult :=
  match data with
  | .noData => .failure "Invalid event data format" sportName
  | .noResult => .failure "Invalid event data format" sportName
  | .badResult =>
    -- `data.result.map` throws a TypeError, caught by the handler.
    .failure ("Error transforming event data: data.result.map is not a function")
      sportName
  | .result ms =>
    let firstMarket : Option RawMarket := ms.head?
    let event : Option RawEvent := firstMarket.bind (·.event)
    let markets : List Market := ms.filterMap transformMarket
    let grouped : GroupedMarkets :=
      { matchOdds := markets.find? (fun m => m.name = some "Match Odds")
        tiedMatch := markets.find? (fun m => m.name = some "Tied Match")
        overUnderMarkets := markets.filter (fun m => nameIncludes m "Over/Under")
        setMarkets := markets.filter (fun m => nameIncludes m "Set")
        gameMarkets := markets.filter (fun m => nameIncludes m "Game")
        otherMarkets := markets.filter (fun m =>
          m.name ≠ some "Match Odds" && m.name ≠ some "Tied Match" &&
          !(nameIncludes m "Over/Under") && !(nameIncludes m "Set") &&
          !(nameIncludes m "Game")) }
    .success sportName
      { id := event.bind (·.id)
        name := event.bind (·.name)
        venue := event.bind (·.venue)
        startTime :=
          match event.bind (·.openDate) with
          | some t => some t
          | none => firstMarket.bind (·.start)
        inPlay := (firstMarket.bind (·.inPlay)).getD false
        competition := (firstMarket.bind (·.competition)).bind (·.name)
        competitionId := (firstMarket.bind (·.competition)).bind (·.id) }
      markets grouped now

/-! ## `transformSportData`

The `forEach` loop of `transformSportData` (dataTransformer.js lines 25-68)
mutates two dictionaries: `matches` (keyed by event id) and `competitions`
(keyed by competition id, holding a list of member event ids).  It is
embedded as a left fold of `tstep` over the market records. -/

/-- A transformed match record (the value stored in `matches[eventId]`). -/
structure SMatch where
  id : String
  name : Option String
  venue : Option String
  startTime : Option Int
  inPlay : Bool
  sport : String
  competitionId : Option String
  competition : Option String
  markets : List Market
  deriving DecidableEq, Repr

/-- The value stored in `competitions[competitionId]` during the loop:
`matches` there is a list of event ids, mapped to match objects afterwards. -/
structure CompRec where
  id : String
  name : String
  matchIds : List String
  deriving DecidableEq, Repr

/-- A competition in the final payload, with its member matches inlined. -/
structure Competition where
  id : String
  name : String
  «matches» : List SMatch
  deriving DecidableEq, Repr

inductive SportResult where
  | failure (message : String) (sport : String) : SportResult
  | success (sport : String) (competitions : List Competition)
      (matchCount : Nat) (timestamp : Nat) : SportResult
  deriving DecidableEq, Repr

/-- The sport name carried by a sport transform result. -/
def SportResult.sportOf : SportResult → String
  | .failure _ s => s
  | .success s _ _ _ => s

/-- The competitions list of a successful sport transform (empty on failure). -/
def SportResult.competitionsOf : SportResult → List Competition
  | .failure _ _ => []
  | .success _ cs _ _ => cs

/-- The match count of a successful sport transform, if any. -/
def SportResult.matchCountOf : SportResult → Option Nat
  | .failure _ _ => none
  | .success _ _ n _ => some n

/-- Whether a sport transform result is the structured failure shape. -/
def SportResult.isFailure : SportResult → Bool
  | .failure _ _ => true
  | .success _ _ _ _ => false

/-- Loop state of the `forEach` in `transformSportData`. -/
structure TState where
  «matches» : List (String × SMatch)
  comps : List (String × CompRec)
  deriving DecidableEq, Repr

/-- The event id of a raw market record, when the record passes the
`!market.event || !market.event.id` guard. -/
def eventIdOf (mk : RawMarket) : Option String := mk.event.bind (·.id)

/-- `market.competition?.id`. -/
def compIdOf (mk : RawMarket) : Option String := mk.competition.bind (·.id)

/-- `market.competition?.name`. -/
def compNameOf (mk : RawMarket) : Option String := mk.competition.bind (·.name)

/-- Append a transformed market to the `markets` array of the match stored at
`eventId` (`matches[eventId].markets.push(...)` guarded by
`if (transformedMarket)`). -/
def pushMarket (l : List (String × SMatch)) (eventId : String)
    (tm : Option Market) : List (String × SMatch) :=
  match tm with
  | none => l
  | some m => updEntry l eventId (fun sm => { sm with markets := sm.markets ++ [m] })

/-- The competition-registration step of the loop body (dataTransformer.js
lines 33-41): `if (competitionId && competitionName) { if
(!competitions[cid]) competitions[cid] = { id, name, matches: [] } }`. -/
def compRegister (comps : List (String × CompRec)) (cid? cname? : Option String) :
    List (String × CompRec) :=
  match cid?, cname? with
  | some cid, some cname =>
    if (alookup comps cid).isSome then comps
    else comps ++ [(cid, { id := cid, name := cname, matchIds := [] })]
  | _, _ => comps

/-- The membership step run at match creation (dataTransformer.js lines
57-60): `if (competitionId && competitions[competitionId])
competitions[competitionId].matches.push(eventId)`. -/
def compAttach (comps : List (String × CompRec)) (cid? : Option String)
    (eventId : String) : List (String × CompRec) :=
  match cid? with
  | some cid =>
    if (alookup comps cid).isSome then
      updEntry comps cid (fun c => { c with matchIds := c.matchIds ++ [eventId] })
    else comps
  | none => comps

/-- The match object created on the first market record of an event
(dataTransformer.js lines 44-55). -/
def newMatchOf (sportName : String) (mk : RawMarket) (eventId : String) : SMatch :=
  let ev := mk.event.getD { id := none, name := none, venue := none, openDate := none }
  { id := eventId
    name := ev.name
    venue := ev.venue
    startTime :=
      match ev.openDate with
      | some t => some t
      | none => mk.start
    inPlay := mk.inPlay.getD false
    sport := sportName
    competitionId := compIdOf mk
    competition := compNameOf mk
    markets := [] }

/-- One iteration of the `forEach` body (dataTransformer.js lines 25-68). -/
def tstep (sportName : String) (st : TState) (mk : RawMarket) : TState :=
  match eventIdOf mk with
  | none => st
  | some eventId =>
    let comps1 := compRegister st.comps (compIdOf mk) (compNameOf mk)
    match alookup st.«matches» eventId with
    | some _ =>
      -- existing match: only the (possibly null) transformed market is pushed
      { «matches» := pushMarket st.«matches» eventId (transformMarket mk)
        comps := comps1 }
    | none =>
      { «matches» :=
          pushMarket (st.«matches» ++ [(eventId, newMatchOf sportName mk eventId)])
            eventId (transformMarket mk)
        comps := compAttach comps1 (compIdOf mk) eventId }

/-- The body of the `try` block on an array result: fold the records, inline
each competition's member matches, sort by the comparator, and return the
success payload (dataTransformer.js lines 19-87). -/
def transformSportCore (lc : String → String → Bool) (ms : List RawMarket)
    (sportName : String) (now : Nat) : SportResult :=
  let st := ms.foldl (tstep sportName) { «matches» := [], comps := [] }
  let competitionsArray : List Competition :=
    st.comps.map (fun p =>
      { id := p.2.id
        name := p.2.name
        «matches» := p.2.matchIds.filterMap (alookup st.«matches») })
  .success sportName (sortBy (fun a b => lc a.name b.name) competitionsArray)
    st.«matches».length now

/-- The `try` block of `transformSportData`, with a thrown exception as
`Except.error`: iterating a truthy non-array `data.result` throws a
TypeError.  The guard cases never reach the `try` block; they are mapped to
a placeholder that the wrapper does not use. -/
def transformSportTry (lc : String → String → Bool) (data : RawData)
    (sportName : String) (now : Nat) : Except String SportResult :=
  match data with
  | .badResult => .error "data.result.forEach is not a function"
  | .result ms => .ok (transformSportCore lc ms sportName now)
  | .noData => .ok (.failure "" sportName)   -- unreachable through the wrapper
  | .noResult => .ok (.failure "" sportName) -- unreachable through the wrapper

/-- `transformSportData` (dataTransformer.js lines 10-96): guard on absent
`data` / `data.result`, then run the `try` block, catching any exception into
the structured failure shape. -/
def transformSportData (lc : String → String → Bool) (data : RawData)
    (sportName : String) (now : Nat) : SportResult :=
  match data with
  | .noData => .failure "Invalid data format" sportName
  | .noResult => .failure "Invalid data format" sportName
  | d =>
    match transformSportTry lc d sportName now with
    | .ok r => r
    | .error msg =>
      .failure ("Error transforming " ++ sportName ++ " data: " ++ msg) sportName

/-- A concrete stand-in comparator used only to instantiate closed
counterexample statements whose outcome is comparator-independent (the sorted
lists involved have at most one element). -/
def lcAsc : String → String → Bool := fun a b => decide (a ≤ b)

/-! ## REST layer: sport-type table, caches, endpoint handlers
(src/unnamed/part_000 lines 436-601) -/

def API_BASE_URL : String := "https://gobook9.com/api"

/-- The `SPORT_TYPE_IDS` object literal (part_000 lines 440-444), read as a
finite map. -/
def SPORT_TYPE_IDS (name : String) : Option String :=
  if name = "cricket" then some "4"
  else if name = "football" then some "1"
  else if name = "tennis" then some "2"
  else none

/-- `getSportTypeId` (part_000 lines 461-464): lowercase the name, look it up,
default to the cricket code. -/
def getSportTypeId (sportName : String) : String :=
  (SPORT_TYPE_IDS (jsToLower sportName)).getD "4"

/-- `CACHE_TTL` (part_000 line 488): 5 minutes in milliseconds. -/
def CACHE_TTL : Nat := 5 * 60 * 1000

/-- Freshness window of the event cache (part_000 line 568): 10 seconds. -/
def EVENT_CACHE_TTL : Nat := 10000

structure SportCacheEntry where
  data : Option SportResult
  timestamp : Nat
  deriving DecidableEq, Repr

structure EventCacheEntry where
  data : Option EventResult
  timestamp : Nat
  deriving DecidableEq, Repr

abbrev SportCache := List (String × SportCacheEntry)
abbrev EventCache := List (String × EventCacheEntry)

/-- `sportsDataCache` initial value (part_000 lines 478-482). -/
def initialSportsCache : SportCache :=
  [("cricket", { data := none, timestamp := 0 }),
   ("football", { data := none, timestamp := 0 }),
   ("tennis", { data := none, timestamp := 0 })]

/-- `eventDataCache` initial value (part_000 line 485): empty. -/
def initialEventCache : EventCache := []

/-- The cache-hit test of `GET /api/sport/:sportName` (part_000 lines
517-525): the entry must exist, its `data` must be truthy, and its age must be
strictly below `CACHE_TTL`.  Returns the cached payload on a hit. -/
def sportCacheHit (cache : SportCache) (key : String) (now : Nat) :
    Option SportResult :=
  match alookup cache key with
  | some entry =>
    match entry.data with
    | some d => if now - entry.timestamp < CACHE_TTL then some d else none
    | none => none
  | none => none

/-- The cache-hit test of `GET /api/event/:sportName/:eventId` (part_000 lines
564-572), with the 10-second window. -/
def eventCacheHit (cache : EventCache) (key : String) (now : Nat) :
    Option EventResult :=
  match alookup cache key with
  | some entry =>
    match entry.data with
    | some d => if now - entry.timestamp < EVENT_CACHE_TTL then some d else none
    | none => none
  | none => none

def sportFetchURL (typeId : String) : String :=
  API_BASE_URL ++ "/exchange/odds/eventType/" ++ typeId

def eventFetchURL (typeId eventId : String) : String :=
  API_BASE_URL ++ "/exchange/odds/d-sma-event/" ++ typeId ++ "/" ++ eventId

inductive SportResponse where
  | ok (payload : SportResult) : SportResponse
  | err500 (message : String) : SportResponse
  deriving DecidableEq, Repr

inductive EventResponse where
  | ok (payload : EventResult) : EventResponse
  | err500 (message : String) : EventResponse
  deriving DecidableEq, Repr

/-- Outcome of one request to the sport endpoint: the HTTP response, whether
the upstream client was invoked (and on which URL), and the cache afterwards. -/
structure SportReqOut where
  response : SportResponse
  fetched : Bool
  urlFetched : Option String
  cacheAfter : SportCache
  deriving DecidableEq, Repr

structure EventReqOut where
  response : EventResponse
  fetched : Bool
  urlFetched : Option String
  cacheAfter : EventCache
  deriving DecidableEq, Repr

/-- `GET /api/sport/:sportName` (part_000 lines 510-554).  `fetchResult` is
what `apiRequest` would return if invoked (`none` models the sentinel `null`
on any transport failure).  On a cache hit the upstream is not consulted; on
a miss with a successful fetch the transformed payload is stored with the
current timestamp — whatever its `success` flag — and served; a `null` fetch
yields a 500 response and leaves the cache untouched. -/
def getSportHandler (lc : String → String → Bool) (cache : SportCache)
    (now : Nat) (sportName : String) (fetchResult : Option RawData) :
    SportReqOut :=
  let sportTypeId := getSportTypeId sportName
  let cacheKey := jsToLower sportName
  match sportCacheHit cache cacheKey now with
  | some d => { response := .ok d, fetched := false, urlFetched := none, cacheAfter := cache }
  | none =>
    match fetchResult with
    | none =>
      { response := .err500 ("Failed to fetch " ++ sportName ++ " data")
        fetched := true
        urlFetched := some (sportFetchURL sportTypeId)
        cacheAfter := cache }
    | some raw =>
      let transformedData := transformSportData lc raw sportName now
      { response := .ok transformedData
        fetched := true
        urlFetched := some (sportFetchURL sportTypeId)
        cacheAfter := aset cache cacheKey { data := some transformedData, timestamp := now } }

/-- `GET /api/event/:sportName/:eventId` (part_000 lines 557-601).  The key is
the raw `sportName_eventId` string (no lowercasing); the window is 10 s. -/
def getEventHandler (cache : EventCache) (now : Nat)
    (sportName eventId : String) (fetchResult : Option RawData) : EventReqOut :=
  let sportTypeId := getSportTypeId sportName
  let cacheKey := sportName ++ "_" ++ eventId
  match eventCacheHit cache cacheKey now with
  | some d => { response := .ok d, fetched := false, urlFetched := none, cacheAfter := cache }
  | none =>
    match fetchResult with
    | none =>
      { response := .err500 ("Failed to fetch event data for " ++ eventId)
        fetched := true
        urlFetched := some (eventFetchURL sportTypeId eventId)
        cacheAfter := cache }
    | some raw =>
      let transformedData := transformEventData raw sportName now
      { response := .ok transformedData
        fetched := true
        urlFetched := some (eventFetchURL sportTypeId eventId)
        cacheAfter := aset cache cacheKey { data := some transformedData, timestamp := now } }

/-! ## Socket subscription tick cycles (part_000 lines 621-733)

`fetchAndEmitSportData` / `fetchAndEmitEventData` are the closures run once at
subscription time and then on every interval tick.  They call `apiRequest`
unconditionally and emit the transformed payload when the fetch returned a
truthy value; neither closure reads or writes `sportsDataCache` or
`eventDataCache`.  A tick is modelled as a function of the server's cache
state (to express that the caches are passed through unchanged and do not
influence the tick) together with the oracle fetch result. -/

inductive SockEffect where
  | fetchUpstream (url : String) : SockEffect
  | emitSport (payload : SportResult) : SockEffect
  | emitEvent (payload : EventResult) : SockEffect
  deriving DecidableEq, Repr

/-- One run of `fetchAndEmitSportData` (part_000 lines 648-659). -/
def sportTick (lc : String → String → Bool) (sportName : String) (now : Nat)
    (caches : SportCache × EventCache) (fetchResult : Option RawData) :
    (SportCache × EventCache) × List SockEffect :=
  let url := sportFetchURL (getSportTypeId sportName)
  match fetchResult with
  | none => (caches, [.fetchUpstream url])
  | some raw =>
    (caches, [.fetchUpstream url, .emitSport (transformSportData lc raw sportName now)])

/-- One run of `fetchAndEmitEventData` (part_000 lines 692-703). -/
def eventTick (sportName eventId : String) (now : Nat)
    (caches : SportCache × EventCache) (fetchResult : Option RawData) :
    (SportCache × EventCache) × List SockEffect :=
  let url := eventFetchURL (getSportTypeId sportName) eventId
  match fetchResult with
  | none => (caches, [.fetchUpstream url])
  | some raw =>
    (caches, [.fetchUpstream url, .emitEvent (transformEventData raw sportName now)])

/-! ## The sport-lane timer state of one connection

The `subscribe_sport` handler (part_000 lines 635-666) runs on the single
event loop.  It executes atomically up to the `await fetchAndEmitSportData()`
and again after that await:

* `clearSeg` — the prefix: `if (sportUpdateInterval) clearInterval(...)` and
  the subscription assignment (the variable is not nulled here);
* `armSeg` — the suffix: `sportUpdateInterval = setInterval(...)`, creating a
  fresh interval timer.

While one handler invocation is suspended at the await, another
`subscribe_sport` event for the same connection can run; an execution of the
lane is a sequence of these segments.  The state tracks the closure variable
`sportUpdateInterval`, the set of interval timers currently live in the
runtime, and a counter supplying fresh timer ids. -/

structure SubLaneState where
  intervalVar : Option Nat
  active : List Nat
  nextId : Nat
  deriving DecidableEq, Repr

inductive SubSeg where
  | clearSeg : SubSeg
  | armSeg : SubSeg
  deriving DecidableEq, Repr

def subStep (st : SubLaneState) : SubSeg → SubLaneState
  | .clearSeg =>
    match st.intervalVar with
    | some i => { st with active := st.active.erase i }
    | none => st
  | .armSeg =>
    { intervalVar := some st.nextId
      active := st.active ++ [st.nextId]
      nextId := st.nextId + 1 }

/-- Run a sequence of handler segments from the fresh-connection state. -/
def runSubs (segs : List SubSeg) : SubLaneState :=
  segs.foldl subStep { intervalVar := none, active := [], nextId := 0 }

/-! ## Library lemmas about the association-list helpers -/

theorem alookup_mem {α : Type} {l : List (String × α)} {k : String} {v : α}
    (h : alookup l k = some v) : (k, v) ∈ l := by
  induction l with
  | nil => simp [alookup] at h
  | cons p t ih =>
    obtain ⟨k', v'⟩ := p
    by_cases hk : k' = k
    · subst hk
      simp [alookup] at h
      subst h
      exact List.mem_cons_self _ _
    · simp only [alookup, if_neg hk] at h
      exact List.mem_cons_of_mem _ (ih h)

theorem alookup_eq_none_iff {α : Type} (l : List (String × α)) (k : String) :
    alookup l k = none ↔ k ∉ keysOf l := by
  induction l with
  | nil => simp [alookup, keysOf]
  | cons p t ih =>
    obtain ⟨k', v'⟩ := p
    by_cases hk : k' = k
    · subst hk
      simp [alookup, keysOf]
    · simp only [alookup, if_neg hk, keysOf, List.map_cons, List.mem_cons]
      rw [ih]
      simp only [keysOf]
      constructor
      · intro hn hc
        rcases hc with hc | hc
        · exact hk hc.symm
        · exact hn hc
      · intro hn hc
        exact hn (Or.inr hc)

theorem alookup_isSome_iff {α : Type} (l : List (String × α)) (k : String) :
    (alookup l k).isSome = true ↔ k ∈ keysOf l := by
  cases hl : alookup l k with
  | none =>
    have hn := (alookup_eq_none_iff l k).mp hl
    simp [hn]
  | some v =>
    have hm : k ∈ keysOf l := by
      exact List.mem_map.mpr ⟨(k, v), alookup_mem hl, rfl⟩
    simp [hm]

theorem alookup_append_left {α : Type} {l : List (String × α)} {k : String}
    {v : α} (l' : List (String × α)) (h : alookup l k = some v) :
    alookup (l ++ l') k = some v := by
  induction l with
  | nil => simp [alookup] at h
  | cons p t ih =>
    obtain ⟨k', v'⟩ := p
    by_cases hk : k' = k
    · subst hk
      simp_all [alookup]
    · simp only [alookup, if_neg hk] at h
      simp only [List.cons_append, alookup, if_neg hk]
      exact ih h

theorem alookup_append_right {α : Type} {l : List (String × α)} {k : String}
    (l' : List (String × α)) (h : alookup l k = none) :
    alookup (l ++ l') k = alookup l' k := by
  induction l with
  | nil => simp
  | cons p t ih =>
    obtain ⟨k', v'⟩ := p
    by_cases hk : k' = k
    · simp [alookup, hk] at h
    · simp only [alookup, if_neg hk] at h
      simp only [List.cons_append, alookup, if_neg hk]
      exact ih h

theorem keysOf_append {α : Type} (l l' : List (String × α)) :
    keysOf (l ++ l') = keysOf l ++ keysOf l' := by
  simp [keysOf]

theorem keysOf_updEntry {α : Type} (l : List (String × α)) (k : String)
    (f : α → α) : keysOf (updEntry l k f) = keysOf l := by
  induction l with
  | nil => simp [updEntry, keysOf]
  | cons p t ih =>
    obtain ⟨k', v'⟩ := p
    by_cases hk : k' = k <;> simp [updEntry, keysOf, hk] <;>
      simpa [keysOf] using ih

theorem updEntry_not_mem {α : Type} {l : List (String × α)} {k : String}
    (f : α → α) (h : k ∉ keysOf l) : updEntry l k f = l := by
  induction l with
  | nil => simp [updEntry]
  | cons p t ih =>
    obtain ⟨k', v'⟩ := p
    simp only [keysOf, List.map_cons, List.mem_cons] at h
    push_neg at h
    have ht : updEntry t k f = t := ih (by simpa [keysOf] using h.2)
    simp only [updEntry]
    rw [if_neg (fun hh => h.1 hh.symm), ht]

theorem alookup_updEntry_self {α : Type} (l : List (String × α)) (k : String)
    (f : α → α) : alookup (updEntry l k f) k = (alookup l k).map f := by
  induction l with
  | nil => simp [updEntry, alookup]
  | cons p t ih =>
    obtain ⟨k', v'⟩ := p
    by_cases hk : k' = k
    · subst hk
      simp [updEntry, alookup]
    · simp only [updEntry, if_neg hk, alookup]
      exact ih

theorem alookup_updEntry_ne {α : Type} (l : List (String × α)) {k k' : String}
    (f : α → α) (h : k' ≠ k) : alookup (updEntry l k f) k' = alookup l k' := by
  induction l with
  | nil => simp [updEntry, alookup]
  | cons p t ih =>
    obtain ⟨kk, v'⟩ := p
    by_cases hk : kk = k
    · subst hk
      simp only [updEntry, if_pos rfl, alookup]
      rw [if_neg (fun hh => h hh.symm), if_neg (fun hh => h hh.symm)]
      exact ih
    · simp only [updEntry, if_neg hk, alookup]
      by_cases hk2 : kk = k'
      · rw [if_pos hk2, if_pos hk2]
      · rw [if_neg hk2, if_neg hk2]
        exact ih

theorem updEntry_mem {α : Type} {l : List (String × α)} {k : String}
    {f : α → α} {p : String × α} (h : p ∈ updEntry l k f) :
    ∃ q ∈ l, p.1 = q.1 ∧ (p.2 = q.2 ∨ (q.1 = k ∧ p.2 = f q.2)) := by
  induction l with
  | nil => simp [updEntry] at h
  | cons q t ih =>
    obtain ⟨kk, v'⟩ := q
    by_cases hk : kk = k
    · simp only [updEntry, if_pos hk, List.mem_cons] at h
      rcases h with h | h
      · exact ⟨(kk, v'), List.mem_cons_self _ _, by simp [h, hk]⟩
      · obtain ⟨q, hq, hpq⟩ := ih h
        exact ⟨q, List.mem_cons_of_mem _ hq, hpq⟩
    · simp only [updEntry, if_neg hk, List.mem_cons] at h
      rcases h with h | h
      · exact ⟨(kk, v'), List.mem_cons_self _ _, by simp [h]⟩
      · obtain ⟨q, hq, hpq⟩ := ih h
        exact ⟨q, List.mem_cons_of_mem _ hq, hpq⟩

theorem alookup_aset_self {α : Type} (l : List (String × α)) (k : String)
    (v : α) : alookup (aset l k v) k = some v := by
  induction l with
  | nil => simp [aset, alookup]
  | cons p t ih =>
    obtain ⟨k', v'⟩ := p
    by_cases hk : k' = k
    · simp [aset, hk, alookup]
    · simp only [aset, if_neg hk, alookup]
      exact ih

/-! ## Counting event ids across competitions -/

/-- Number of occurrences of `e` in a list of event ids. -/
def countIds (e : String) (ids : List String) : Nat :=
  (ids.filter (fun x => decide (x = e))).length

/-- Total number of occurrences of event id `e` across the member lists of
all competitions in the loop dictionary. -/
def countAll (e : String) (comps : List (String × CompRec)) : Nat :=
  (comps.map (fun p => countIds e p.2.matchIds)).sum

/-- Total number of match objects with id `e` across the competitions of a
final payload. -/
def countInCompetitions (e : String) (cs : List Competition) : Nat :=
  (cs.map (fun c => (c.«matches».filter (fun m => decide (m.id = e))).length)).sum

theorem countIds_append (e : String) (ids : List String) (x : String) :
    countIds e (ids ++ [x]) = countIds e ids + (if x = e then 1 else 0) := by
  simp only [countIds, List.filter_append]
  by_cases hx : x = e <;> simp [hx]

theorem countAll_nil (e : String) : countAll e [] = 0 := rfl

theorem countAll_append_one (e : String) (comps : List (String × CompRec))
    (cid : String) (c : CompRec) :
    countAll e (comps ++ [(cid, c)]) = countAll e comps + countIds e c.matchIds := by
  simp [countAll]

theorem countAll_cons (e : String) (k : String) (c : CompRec)
    (t : List (String × CompRec)) :
    countAll e ((k, c) :: t) = countIds e c.matchIds + countAll e t := by
  simp [countAll]

theorem countAll_updEntry_push (e x cid : String)
    (comps : List (String × CompRec)) (hnd : (keysOf comps).Nodup) :
    countAll e (updEntry comps cid (fun c => { c with matchIds := c.matchIds ++ [x] })) =
      countAll e comps +
        (if cid ∈ keysOf comps ∧ x = e then 1 else 0) := by
  induction comps with
  | nil => simp [updEntry, countAll, keysOf]
  | cons p t ih =>
    obtain ⟨k, c⟩ := p
    simp only [keysOf, List.map_cons, List.nodup_cons] at hnd
    have hmemk : cid ∈ keysOf ((k, c) :: t) ↔ (k = cid ∨ cid ∈ keysOf t) := by
      simp only [keysOf, List.map_cons, List.mem_cons]
      constructor
      · rintro (h | h)
        · exact Or.inl h.symm
        · exact Or.inr h
      · rintro (h | h)
        · exact Or.inl h.symm
        · exact Or.inr h
    by_cases hk : k = cid
    · have ht : updEntry t cid (fun c => { c with matchIds := c.matchIds ++ [x] }) = t := by
        refine updEntry_not_mem _ ?_
        rw [← hk]
        simpa [keysOf] using hnd.1
      simp only [updEntry, if_pos hk, countAll_cons, ht, countIds_append]
      have hcond : (cid ∈ keysOf ((k, c) :: t) ∧ x = e) ↔ x = e := by
        rw [hmemk]
        tauto
      by_cases hx : x = e
      · simp only [if_pos hx, if_pos (hcond.mpr hx)]
        omega
      · have : ¬ (cid ∈ keysOf ((k, c) :: t) ∧ x = e) := fun hc => hx hc.2
        simp only [if_neg hx, if_neg this]
        omega
    · simp only [updEntry, if_neg hk, countAll_cons, ih hnd.2]
      have hcond : (cid ∈ keysOf ((k, c) :: t) ∧ x = e) ↔ (cid ∈ keysOf t ∧ x = e) := by
        rw [hmemk]
        tauto
      by_cases hc : cid ∈ keysOf t ∧ x = e
      · simp only [if_pos hc, if_pos (hcond.mpr hc)]
        omega
      · simp only [if_neg hc, if_neg (fun hh => hc (hcond.mp hh))]
        omega

/-! ## Lemmas about the loop-body components -/

theorem compRegister_countAll (e : String) (comps : List (String × CompRec))
    (a b : Option String) : countAll e (compRegister comps a b) = countAll e comps := by
  match a, b with
  | some cid, some cname =>
    simp only [compRegister]
    by_cases h : (alookup comps cid).isSome = true
    · simp [h]
    · simp only [if_neg h, countAll_append_one]
      simp [countIds]
  | some _, none => rfl
  | none, some _ => rfl
  | none, none => rfl

theorem compRegister_keys_nodup (comps : List (String × CompRec))
    (a b : Option String) (hnd : (keysOf comps).Nodup) :
    (keysOf (compRegister comps a b)).Nodup := by
  match a, b with
  | some cid, some cname =>
    simp only [compRegister]
    by_cases h : (alookup comps cid).isSome = true
    · simpa [h]
    · simp only [if_neg h, keysOf_append]
      have hnot : cid ∉ keysOf comps := by
        rw [← alookup_isSome_iff]
        simpa using h
      simp only [keysOf, List.nodup_append, List.nodup_cons, List.nodup_nil,
        List.map_cons, List.map_nil]
      refine ⟨hnd, by simp, ?_⟩
      intro a ha hab
      simp only [List.mem_cons, List.not_mem_nil, or_false] at hab
      subst hab
      exact hnot (by simpa [keysOf] using ha)
  | some _, none => simpa [compRegister]
  | none, some _ => simpa [compRegister]
  | none, none => simpa [compRegister]

theorem compRegister_mem {comps : List (String × CompRec)} {a b : Option String}
    {p : String × CompRec} (h : p ∈ compRegister comps a b) :
    p ∈ comps ∨ (p.2.matchIds = [] ∧ p.2.id = p.1) := by
  match a, b with
  | some cid, some cname =>
    simp only [compRegister] at h
    by_cases hs : (alookup comps cid).isSome = true
    · rw [if_pos hs] at h
      exact Or.inl h
    · rw [if_neg hs] at h
      rcases List.mem_append.mp h with h | h
      · exact Or.inl h
      · simp at h
        subst h
        exact Or.inr ⟨rfl, rfl⟩
  | some _, none => exact Or.inl (by simpa [compRegister] using h)
  | none, some _ => exact Or.inl (by simpa [compRegister] using h)
  | none, none => exact Or.inl (by simpa [compRegister] using h)

theorem compRegister_lookup_back {comps : List (String × CompRec)}
    {a b : Option String} {k : String} {c : CompRec}
    (h : alookup (compRegister comps a b) k = some c) :
    alookup comps k = some c ∨ (c.matchIds = [] ∧ c.id = k) := by
  match a, b with
  | some cid, some cname =>
    simp only [compRegister] at h
    by_cases hs : (alookup comps cid).isSome = true
    · rw [if_pos hs] at h
      exact Or.inl h
    · rw [if_neg hs] at h
      cases hl : alookup comps k with
      | some c0 =>
        rw [alookup_append_left _ hl] at h
        exact Or.inl h
      | none =>
        rw [alookup_append_right _ hl] at h
        simp only [alookup] at h
        by_cases hck : cid = k
        · rw [if_pos hck] at h
          obtain rfl := (Option.some.injEq _ _).mp h
          exact Or.inr ⟨rfl, hck⟩
        · rw [if_neg hck] at h
          simp [alookup] at h
  | some _, none => exact Or.inl (by simpa [compRegister] using h)
  | none, some _ => exact Or.inl (by simpa [compRegister] using h)
  | none, none => exact Or.inl (by simpa [compRegister] using h)

theorem compRegister_isSome_mono {comps : List (String × CompRec)}
    (a b : Option String) {k : String}
    (h : (alookup comps k).isSome = true) :
    (alookup (compRegister comps a b) k).isSome = true := by
  match a, b with
  | some cid, some cname =>
    simp only [compRegister]
    by_cases hs : (alookup comps cid).isSome = true
    · simpa [hs]
    · rw [if_neg hs]
      cases hl : alookup comps k with
      | none => simp [hl] at h
      | some c0 => simp [alookup_append_left _ hl]
  | some _, none => simpa [compRegister]
  | none, some _ => simpa [compRegister]
  | none, none => simpa [compRegister]

theorem compRegister_registers (comps : List (String × CompRec))
    (cid cname : String) :
    (alookup (compRegister comps (some cid) (some cname)) cid).isSome = true := by
  simp only [compRegister]
  by_cases hs : (alookup comps cid).isSome = true
  · simp [hs]
  · rw [if_neg hs]
    have hl : alookup comps cid = none := by
      cases hc : alookup comps cid with
      | none => rfl
      | some c => simp [hc] at hs
    rw [alookup_append_right _ hl]
    simp [alookup]

theorem compAttach_none (comps : List (String × CompRec)) (x : String) :
    compAttach comps none x = comps := rfl

theorem compAttach_keys (comps : List (String × CompRec)) (cid? : Option String)
    (x : String) : keysOf (compAttach comps cid? x) = keysOf comps := by
  match cid? with
  | none => rfl
  | some cid =>
    simp only [compAttach]
    by_cases hs : (alookup comps cid).isSome = true
    · simp [hs, keysOf_updEntry]
    · simp [hs]

theorem compAttach_countAll_some (e x cid : String)
    (comps : List (String × CompRec)) (hnd : (keysOf comps).Nodup) :
    countAll e (compAttach comps (some cid) x) =
      countAll e comps +
        (if (alookup comps cid).isSome = true ∧ x = e then 1 else 0) := by
  simp only [compAttach]
  by_cases hs : (alookup comps cid).isSome = true
  · rw [if_pos hs, countAll_updEntry_push _ _ _ _ hnd]
    have hmem : cid ∈ keysOf comps := (alookup_isSome_iff _ _).mp hs
    by_cases hx : x = e
    · rw [if_pos ⟨hmem, hx⟩, if_pos ⟨hs, hx⟩]
    · rw [if_neg (fun hh => hx hh.2), if_neg (fun hh => hx hh.2)]
  · rw [if_neg hs, if_neg (fun hh => hs hh.1)]
    omega

theorem compAttach_mem {comps : List (String × CompRec)} {cid? : Option String}
    {x : String} {p : String × CompRec} (h : p ∈ compAttach comps cid? x) :
    ∃ q ∈ comps, p.1 = q.1 ∧ p.2.id = q.2.id ∧
      (p.2.matchIds = q.2.matchIds ∨
        (cid? = some q.1 ∧ p.2.matchIds = q.2.matchIds ++ [x])) := by
  match cid? with
  | none =>
    exact ⟨p, h, rfl, rfl, Or.inl rfl⟩
  | some cid =>
    simp only [compAttach] at h
    by_cases hs : (alookup comps cid).isSome = true
    · rw [if_pos hs] at h
      obtain ⟨q, hq, h1, h2⟩ := updEntry_mem h
      rcases h2 with h2 | ⟨hqk, h2⟩
      · exact ⟨q, hq, h1, by rw [h2], Or.inl (by rw [h2])⟩
      · exact ⟨q, hq, h1, by rw [h2], Or.inr ⟨by rw [hqk], by rw [h2]⟩⟩
    · rw [if_neg hs] at h
      exact ⟨p, h, rfl, rfl, Or.inl rfl⟩

theorem pushMarket_none (l : List (String × SMatch)) (e : String) :
    pushMarket l e none = l := rfl

theorem pushMarket_keys (l : List (String × SMatch)) (e : String)
    (tm : Option Market) : keysOf (pushMarket l e tm) = keysOf l := by
  match tm with
  | none => rfl
  | some mkt => simp [pushMarket, keysOf_updEntry]

theorem pushMarket_lookup_fields {l : List (String × SMatch)} {k : String}
    {m : SMatch} (e : String) (tm : Option Market)
    (h : alookup l k = some m) :
    ∃ m', alookup (pushMarket l e tm) k = some m' ∧ m'.id = m.id ∧
      m'.competitionId = m.competitionId ∧ m'.competition = m.competition := by
  match tm with
  | none => exact ⟨m, h, rfl, rfl, rfl⟩
  | some mkt =>
    simp only [pushMarket]
    by_cases hk : k = e
    · subst hk
      rw [alookup_updEntry_self, h]
      exact ⟨_, rfl, rfl, rfl, rfl⟩
    · rw [alookup_updEntry_ne _ _ hk, h]
      exact ⟨m, rfl, rfl, rfl, rfl⟩

theorem pushMarket_lookup_none {l : List (String × SMatch)} {k : String}
    (e : String) (tm : Option Market) (h : alookup l k = none) :
    alookup (pushMarket l e tm) k = none := by
  rw [alookup_eq_none_iff] at h ⊢
  rw [pushMarket_keys]
  exact h

theorem pushMarket_mem {l : List (String × SMatch)} {e : String}
    {tm : Option Market} {p : String × SMatch} (h : p ∈ pushMarket l e tm) :
    ∃ q ∈ l, p.1 = q.1 ∧ p.2.id = q.2.id ∧ p.2.competitionId = q.2.competitionId ∧
      (p.2.markets = q.2.markets ∨
        ∃ mkt, tm = some mkt ∧ p.2.markets = q.2.markets ++ [mkt]) := by
  match tm with
  | none => exact ⟨p, h, rfl, rfl, rfl, Or.inl rfl⟩
  | some mkt =>
    simp only [pushMarket] at h
    obtain ⟨q, hq, h1, h2⟩ := updEntry_mem h
    rcases h2 with h2 | ⟨hqk, h2⟩
    · exact ⟨q, hq, h1, by rw [h2], by rw [h2], Or.inl (by rw [h2])⟩
    · exact ⟨q, hq, h1, by rw [h2], by rw [h2], Or.inr ⟨mkt, rfl, by rw [h2]⟩⟩

/-! ## The loop invariant of `transformSportData` -/

/-- Invariant of the `forEach` loop state: keys are unduplicated and mirror
the stored `id` fields; every event id stored in some competition's member
list resolves to a match whose `competitionId` points back at that
competition; and every event id occurs at most once across all member lists
(zero times when the match does not exist yet). -/
structure TInv (st : TState) : Prop where
  mnodup : (keysOf st.«matches»).Nodup
  cnodup : (keysOf st.comps).Nodup
  idkey : ∀ p ∈ st.«matches», (p.2 : SMatch).id = p.1
  compkey : ∀ p ∈ st.comps, (p.2 : CompRec).id = p.1
  memlookup : ∀ p ∈ st.comps, ∀ e ∈ (p.2 : CompRec).matchIds,
    ∃ m, alookup st.«matches» e = some m ∧ m.competitionId = some p.1
  once : ∀ e, countAll e st.comps ≤ 1
  absent : ∀ e, alookup st.«matches» e = none → countAll e st.comps = 0

theorem tinv_init : TInv { «matches» := [], comps := [] } := by
  constructor <;> simp [keysOf, countAll, alookup]

theorem tinv_step (sportName : String) (st : TState) (mk : RawMarket)
    (h : TInv st) : TInv (tstep sportName st mk) := by
  cases heid : eventIdOf mk with
  | none => simpa [tstep, heid] using h
  | some e0 =>
    cases hlk : alookup st.«matches» e0 with
    | some m0 =>
      simp only [tstep, heid, hlk]
      constructor
      · rw [pushMarket_keys]
        exact h.mnodup
      · exact compRegister_keys_nodup _ _ _ h.cnodup
      · intro p hp
        obtain ⟨q, hq, h1, h2, -⟩ := pushMarket_mem hp
        rw [h1, h2]
        exact h.idkey q hq
      · intro p hp
        rcases compRegister_mem hp with hp | ⟨-, hid⟩
        · exact h.compkey p hp
        · exact hid
      · intro p hp e he
        rcases compRegister_mem hp with hp | ⟨hnil, -⟩
        · obtain ⟨m, hm, hcm⟩ := h.memlookup p hp e he
          obtain ⟨m', hm', -, hcm', -⟩ :=
            pushMarket_lookup_fields e0 (transformMarket mk) hm
          exact ⟨m', hm', by rw [hcm', hcm]⟩
        · rw [hnil] at he
          simp at he
      · intro e
        rw [compRegister_countAll]
        exact h.once e
      · intro e he
        rw [compRegister_countAll]
        refine h.absent e ?_
        rw [alookup_eq_none_iff] at he ⊢
        rwa [pushMarket_keys] at he
    | none =>
      have he0 : e0 ∉ keysOf st.«matches» := (alookup_eq_none_iff _ _).mp hlk
      simp only [tstep, heid, hlk]
      constructor
      · rw [pushMarket_keys, keysOf_append]
        simp only [keysOf, List.map_cons, List.map_nil]
        rw [List.nodup_append]
        refine ⟨h.mnodup, by simp, ?_⟩
        intro a ha hab
        simp only [List.mem_cons, List.not_mem_nil, or_false] at hab
        subst hab
        exact he0 ha
      · rw [show keysOf (compAttach (compRegister st.comps (compIdOf mk) (compNameOf mk)) (compIdOf mk) e0) = keysOf (compRegister st.comps (compIdOf mk) (compNameOf mk)) from compAttach_keys _ _ _]
        exact compRegister_keys_nodup _ _ _ h.cnodup
      · intro p hp
        obtain ⟨q, hq, h1, h2, -⟩ := pushMarket_mem hp
        rw [h1, h2]
        rcases List.mem_append.mp hq with hq | hq
        · exact h.idkey q hq
        · simp only [List.mem_cons, List.not_mem_nil, or_false] at hq
          subst hq
          rfl
      · intro p hp
        obtain ⟨q, hq, h1, h2, -⟩ := compAttach_mem hp
        rw [h1, h2]
        rcases compRegister_mem hq with hq | ⟨-, hid⟩
        · exact h.compkey q hq
        · exact hid
      · intro p hp e he
        obtain ⟨q, hq, h1, h2, h3⟩ := compAttach_mem hp
        have hold : ∀ e, e ∈ (q.2 : CompRec).matchIds →
            ∃ m, alookup (pushMarket (st.«matches» ++ [(e0, newMatchOf sportName mk e0)]) e0 (transformMarket mk)) e = some m ∧
              m.competitionId = some p.1 := by
          intro e he
          rcases compRegister_mem hq with hq2 | ⟨hnil, -⟩
          · obtain ⟨m, hm, hcm⟩ := h.memlookup q hq2 e he
            have hm2 : alookup (st.«matches» ++ [(e0, newMatchOf sportName mk e0)]) e = some m :=
              alookup_append_left _ hm
            obtain ⟨m', hm', -, hcm', -⟩ :=
              pushMarket_lookup_fields e0 (transformMarket mk) hm2
            exact ⟨m', hm', by rw [hcm', hcm, h1]⟩
          · rw [hnil] at he
            simp at he
        rcases h3 with h3 | ⟨hcid, h3⟩
        · rw [h3] at he
          exact hold e he
        · rw [h3] at he
          rcases List.mem_append.mp he with he | he
          · exact hold e he
          · simp only [List.mem_cons, List.not_mem_nil, or_false] at he
            rw [he]
            have hm2 : alookup (st.«matches» ++ [(e0, newMatchOf sportName mk e0)]) e0 =
                some (newMatchOf sportName mk e0) := by
              rw [alookup_append_right _ hlk]
              simp [alookup]
            obtain ⟨m', hm', -, hcm', -⟩ :=
              pushMarket_lookup_fields e0 (transformMarket mk) hm2
            refine ⟨m', hm', ?_⟩
            rw [hcm']
            show compIdOf mk = some p.1
            rw [hcid, h1]
      · intro e
        cases hcid : compIdOf mk with
        | none =>
          simp only [compAttach_none]
          rw [compRegister_countAll]
          exact h.once e
        | some cid =>
          rw [compAttach_countAll_some _ _ _ _ (compRegister_keys_nodup _ _ _ h.cnodup),
            compRegister_countAll]
          by_cases hx : e0 = e
          · subst hx
            rw [h.absent e0 hlk]
            split <;> omega
          · rw [if_neg (fun hh => hx hh.2)]
            have := h.once e
            omega
      · intro e he
        have hkeys : e ∉ keysOf st.«matches» ∧ e ≠ e0 := by
          rw [alookup_eq_none_iff, pushMarket_keys, keysOf_append] at he
          simp only [keysOf, List.map_cons, List.map_nil, List.mem_append,
            List.mem_cons, List.not_mem_nil, or_false] at he
          push_neg at he
          exact ⟨he.1, he.2⟩
        have h0 : countAll e st.comps = 0 :=
          h.absent e ((alookup_eq_none_iff _ _).mpr hkeys.1)
        cases hcid : compIdOf mk with
        | none =>
          simp only [compAttach_none]
          rw [compRegister_countAll]
          exact h0
        | some cid =>
          rw [compAttach_countAll_some _ _ _ _ (compRegister_keys_nodup _ _ _ h.cnodup),
            compRegister_countAll, h0]
          rw [if_neg (fun hh => hkeys.2 hh.2.symm)]

/-! ## Step and fold lemmas used to analyse whole runs of the loop -/

theorem tstep_isSome_mono (sportName : String) (st : TState) (mk : RawMarket)
    (e : String) (h : (alookup st.«matches» e).isSome = true) :
    (alookup (tstep sportName st mk).«matches» e).isSome = true := by
  cases heid : eventIdOf mk with
  | none => simpa [tstep, heid]
  | some e0 =>
    cases hlk : alookup st.«matches» e0 with
    | some m0 =>
      simp only [tstep, heid, hlk]
      rw [alookup_isSome_iff] at h ⊢
      rwa [pushMarket_keys]
    | none =>
      simp only [tstep, heid, hlk]
      rw [alookup_isSome_iff] at h ⊢
      rw [pushMarket_keys, keysOf_append]
      exact List.mem_append.mpr (Or.inl h)

theorem tstep_countAll_present (sportName : String) (st : TState)
    (mk : RawMarket) (e : String) (hinv : TInv st)
    (h : (alookup st.«matches» e).isSome = true) :
    countAll e (tstep sportName st mk).comps = countAll e st.comps := by
  cases heid : eventIdOf mk with
  | none => simp [tstep, heid]
  | some e0 =>
    cases hlk : alookup st.«matches» e0 with
    | some m0 =>
      simp only [tstep, heid, hlk]
      exact compRegister_countAll _ _ _ _
    | none =>
      have hne : e0 ≠ e := by
        intro hh
        rw [hh] at hlk
        rw [hlk] at h
        simp at h
      simp only [tstep, heid, hlk]
      cases hcid : compIdOf mk with
      | none =>
        simp only [compAttach_none]
        exact compRegister_countAll _ _ _ _
      | some cid =>
        rw [compAttach_countAll_some _ _ _ _
          (compRegister_keys_nodup _ _ _ hinv.cnodup), compRegister_countAll]
        rw [if_neg (fun hh => hne hh.2)]
        omega

theorem tstep_lookup_none (sportName : String) (st : TState) (mk : RawMarket)
    (e : String) (h : alookup st.«matches» e = none)
    (hne : eventIdOf mk ≠ some e) :
    alookup (tstep sportName st mk).«matches» e = none := by
  cases heid : eventIdOf mk with
  | none => simpa [tstep, heid]
  | some e0 =>
    have hne0 : e0 ≠ e := fun hh => hne (by rw [heid, hh])
    cases hlk : alookup st.«matches» e0 with
    | some m0 =>
      simp only [tstep, heid, hlk]
      rw [alookup_eq_none_iff] at h ⊢
      rwa [pushMarket_keys]
    | none =>
      simp only [tstep, heid, hlk]
      rw [alookup_eq_none_iff] at h ⊢
      rw [pushMarket_keys, keysOf_append]
      intro hmem
      rcases List.mem_append.mp hmem with hmem | hmem
      · exact h hmem
      · simp only [keysOf, List.map_cons, List.map_nil, List.mem_cons,
          List.not_mem_nil, or_false] at hmem
        exact hne0 hmem.symm

theorem tstep_keys_mem (sportName : String) (st : TState) (mk : RawMarket)
    (e : String) :
    e ∈ keysOf (tstep sportName st mk).«matches» ↔
      (e ∈ keysOf st.«matches» ∨ eventIdOf mk = some e) := by
  cases heid : eventIdOf mk with
  | none => simp [tstep, heid]
  | some e0 =>
    cases hlk : alookup st.«matches» e0 with
    | some m0 =>
      simp only [tstep, heid, hlk]
      rw [pushMarket_keys]
      constructor
      · exact Or.inl
      · rintro (h | h)
        · exact h
        · have he : e0 = e := by injection h
          rw [← he]
          rw [← alookup_isSome_iff]
          simp [hlk]
    | none =>
      simp only [tstep, heid, hlk]
      rw [pushMarket_keys, keysOf_append]
      simp only [keysOf, List.map_cons, List.map_nil, List.mem_append,
        List.mem_cons, List.not_mem_nil, or_false, Option.some.injEq]
      constructor
      · rintro (h | h)
        · exact Or.inl h
        · exact Or.inr h.symm
      · rintro (h | h)
        · exact Or.inl h
        · exact Or.inr h.symm

/-- Predicate for C8: every market stored in some match of the loop state is
the transform of some record of the full input list. -/
def MarketsFrom (full : List RawMarket) (st : TState) : Prop :=
  ∀ p ∈ st.«matches», ∀ mkt ∈ (p.2 : SMatch).markets,
    ∃ rm ∈ full, transformMarket rm = some mkt

theorem marketsFrom_step (full : List RawMarket) (sportName : String)
    (st : TState) (mk : RawMarket) (hmk : mk ∈ full)
    (h : MarketsFrom full st) : MarketsFrom full (tstep sportName st mk) := by
  cases heid : eventIdOf mk with
  | none => simpa [tstep, heid]
  | some e0 =>
    cases hlk : alookup st.«matches» e0 with
    | some m0 =>
      intro p hp mkt hm
      simp only [tstep, heid, hlk] at hp
      obtain ⟨q, hq, -, -, -, h4⟩ := pushMarket_mem hp
      rcases h4 with h4 | ⟨mkt0, htm, h4⟩
      · rw [h4] at hm
        exact h q hq mkt hm
      · rw [h4] at hm
        rcases List.mem_append.mp hm with hm | hm
        · exact h q hq mkt hm
        · simp only [List.mem_cons, List.not_mem_nil, or_false] at hm
          exact ⟨mk, hmk, by rw [htm, hm]⟩
    | none =>
      intro p hp mkt hm
      simp only [tstep, heid, hlk] at hp
      obtain ⟨q, hq, -, -, -, h4⟩ := pushMarket_mem hp
      have hqmem : q ∈ st.«matches» ∨ (q.2 : SMatch).markets = [] := by
        rcases List.mem_append.mp hq with hq | hq
        · exact Or.inl hq
        · simp only [List.mem_cons, List.not_mem_nil, or_false] at hq
          right
          rw [hq]
          rfl
      rcases h4 with h4 | ⟨mkt0, htm, h4⟩
      · rw [h4] at hm
        rcases hqmem with hq2 | hq2
        · exact h q hq2 mkt hm
        · rw [hq2] at hm
          simp at hm
      · rw [h4] at hm
        rcases List.mem_append.mp hm with hm | hm
        · rcases hqmem with hq2 | hq2
          · exact h q hq2 mkt hm
          · rw [hq2] at hm
            simp at hm
        · simp only [List.mem_cons, List.not_mem_nil, or_false] at hm
          exact ⟨mk, hmk, by rw [htm, hm]⟩

theorem tinv_fold (sportName : String) (ms : List RawMarket) :
    ∀ st : TState, TInv st → TInv (ms.foldl (tstep sportName) st) := by
  induction ms with
  | nil => intro st h; simpa
  | cons m t ih =>
    intro st h
    simp only [List.foldl_cons]
    exact ih _ (tinv_step _ _ _ h)

theorem fold_present (sportName : String) (ms : List RawMarket) :
    ∀ (st : TState) (e : String), TInv st →
      (alookup st.«matches» e).isSome = true →
      (alookup (ms.foldl (tstep sportName) st).«matches» e).isSome = true ∧
      countAll e (ms.foldl (tstep sportName) st).comps = countAll e st.comps := by
  induction ms with
  | nil => intro st e _ h; simpa
  | cons m t ih =>
    intro st e hinv h
    simp only [List.foldl_cons]
    obtain ⟨h1, h2⟩ := ih _ e (tinv_step _ _ _ hinv) (tstep_isSome_mono _ _ _ _ h)
    exact ⟨h1, by rw [h2, tstep_countAll_present _ _ _ _ hinv h]⟩

theorem marketsFrom_fold (full : List RawMarket) (sportName : String)
    (ms : List RawMarket) :
    ∀ st : TState, (∀ x ∈ ms, x ∈ full) → MarketsFrom full st →
      MarketsFrom full (ms.foldl (tstep sportName) st) := by
  induction ms with
  | nil => intro st _ h; simpa
  | cons m t ih =>
    intro st hsub h
    simp only [List.foldl_cons]
    exact ih _ (fun x hx => hsub x (List.mem_cons_of_mem _ hx))
      (marketsFrom_step _ _ _ _ (hsub m (List.mem_cons_self _ _)) h)

theorem fold_first_market (sportName : String) (ms : List RawMarket) :
    ∀ (st : TState) (e : String) (mk : RawMarket) (cid cname : String),
      TInv st →
      alookup st.«matches» e = none →
      ms.find? (fun m => decide (eventIdOf m = some e)) = some mk →
      compIdOf mk = some cid → compNameOf mk = some cname →
      countAll e (ms.foldl (tstep sportName) st).comps = 1 := by
  induction ms with
  | nil =>
    intro st e mk cid cname _ _ hfind _ _
    simp at hfind
  | cons m t ih =>
    intro st e mk cid cname hinv hlk hfind hcid hcname
    simp only [List.foldl_cons]
    by_cases hp : eventIdOf m = some e
    · have hm : m = mk := by
        rw [List.find?_cons_of_pos _ (by simpa using hp)] at hfind
        injection hfind
      rw [← hm] at hcid hcname
      have hstep_count : countAll e (tstep sportName st m).comps = 1 := by
        simp only [tstep, hp, hlk, hcid, hcname]
        rw [compAttach_countAll_some _ _ _ _
          (compRegister_keys_nodup _ _ _ hinv.cnodup), compRegister_countAll]
        rw [hinv.absent e hlk]
        rw [if_pos ⟨compRegister_registers st.comps cid cname, rfl⟩]
      have hstep_some : (alookup (tstep sportName st m).«matches» e).isSome = true := by
        simp only [tstep, hp, hlk]
        rw [alookup_isSome_iff, pushMarket_keys, keysOf_append]
        simp [keysOf]
      obtain ⟨-, h2⟩ := fold_present sportName t (tstep sportName st m) e
        (tinv_step _ _ _ hinv) hstep_some
      rw [h2, hstep_count]
    · have hfind2 : t.find? (fun m => decide (eventIdOf m = some e)) = some mk := by
        rwa [List.find?_cons_of_neg _ (by simpa using hp)] at hfind
      exact ih _ e mk cid cname (tinv_step _ _ _ hinv)
        (tstep_lookup_none _ _ _ _ hlk hp) hfind2 hcid hcname

theorem fold_keys_mem (sportName : String) (ms : List RawMarket) :
    ∀ (st : TState) (e : String),
      e ∈ keysOf (ms.foldl (tstep sportName) st).«matches» ↔
        (e ∈ keysOf st.«matches» ∨ e ∈ ms.filterMap eventIdOf) := by
  induction ms with
  | nil => intro st e; simp
  | cons m t ih =>
    intro st e
    simp only [List.foldl_cons]
    rw [ih, tstep_keys_mem]
    cases heid : eventIdOf m with
    | none => simp [List.filterMap_cons, heid]
    | some e0 =>
      simp only [List.filterMap_cons, heid, List.mem_cons, Option.some.injEq]
      constructor
      · rintro ((h | h) | h)
        · exact Or.inl h
        · exact Or.inr (Or.inl h.symm)
        · exact Or.inr (Or.inr h)
      · rintro (h | (h | h))
        · exact Or.inl (Or.inl h)
        · exact Or.inl (Or.inr h.symm)
        · exact Or.inr h

theorem fold_matches_length (sportName : String) (ms : List RawMarket) :
    ((ms.foldl (tstep sportName) { «matches» := [], comps := [] }).«matches»).length =
      ((ms.filterMap eventIdOf).dedup).length := by
  have hnd : (keysOf (ms.foldl (tstep sportName) { «matches» := [], comps := [] }).«matches»).Nodup :=
    (tinv_fold sportName ms _ tinv_init).mnodup
  have hperm : List.Perm
      (keysOf (ms.foldl (tstep sportName) { «matches» := [], comps := [] }).«matches»)
      ((ms.filterMap eventIdOf).dedup) := by
    rw [List.perm_ext_iff_of_nodup hnd (List.nodup_dedup _)]
    intro a
    rw [List.mem_dedup, fold_keys_mem]
    simp [keysOf]
  have hlen := hperm.length_eq
  rw [show (keysOf (ms.foldl (tstep sportName) { «matches» := [], comps := [] }).«matches»).length = ((ms.foldl (tstep sportName) { «matches» := [], comps := [] }).«matches»).length from List.length_map _ _] at hlen
  exact hlen

/-! ## Relating the loop state to the final payload -/

theorem transformSportData_result (lc : String → String → Bool)
    (ms : List RawMarket) (sport : String) (now : Nat) :
    transformSportData lc (.result ms) sport now =
      .success sport
        (sortBy (fun a b => lc a.name b.name)
          ((ms.foldl (tstep sport) { «matches» := [], comps := [] }).comps.map
            (fun p =>
              { id := p.2.id
                name := p.2.name
                «matches» := p.2.matchIds.filterMap
                  (alookup (ms.foldl (tstep sport) { «matches» := [], comps := [] }).«matches») })))
        ((ms.foldl (tstep sport) { «matches» := [], comps := [] }).«matches»).length
        now := rfl

theorem filterMap_count (M : List (String × SMatch)) (e : String) :
    ∀ ids : List String,
      (∀ mid ∈ ids, ∃ m, alookup M mid = some m ∧ (m : SMatch).id = mid) →
      ((ids.filterMap (alookup M)).filter (fun m => decide ((m : SMatch).id = e))).length =
        countIds e ids := by
  intro ids
  induction ids with
  | nil => intro _; simp [countIds]
  | cons mid t ih =>
    intro h
    obtain ⟨m, hm, hid⟩ := h mid (List.mem_cons_self _ _)
    have iht := ih (fun x hx => h x (List.mem_cons_of_mem _ hx))
    simp only [List.filterMap_cons, hm, countIds, List.filter_cons] at iht ⊢
    rw [hid]
    by_cases hx : mid = e
    · simp [hx, iht]
    · simp [hx, iht]

theorem countInCompetitions_final (lc : String → String → Bool)
    (ms : List RawMarket) (sport : String) (now : Nat) (e : String) :
    countInCompetitions e (transformSportData lc (.result ms) sport now).competitionsOf =
      countAll e (ms.foldl (tstep sport) { «matches» := [], comps := [] }).comps := by
  have hinv : TInv (ms.foldl (tstep sport) { «matches» := [], comps := [] }) :=
    tinv_fold sport ms _ tinv_init
  rw [transformSportData_result]
  simp only [SportResult.competitionsOf, countInCompetitions]
  rw [List.Perm.sum_eq (List.Perm.map _ (sortBy_perm _ _))]
  rw [List.map_map]
  simp only [countAll]
  congr 1
  refine List.map_congr_left ?_
  intro p hp
  simp only [Function.comp_apply]
  refine filterMap_count _ e _ ?_
  intro mid hmid
  obtain ⟨m, hm, -⟩ := hinv.memlookup p hp mid hmid
  exact ⟨m, hm, hinv.idkey (mid, m) (alookup_mem hm)⟩

theorem transformMarket_runners_ne {rm : RawMarket} {mkt : Market}
    (h : transformMarket rm = some mkt) : rm.runners ≠ none := by
  intro hr
  rw [transformMarket] at h
  rw [hr] at h
  simp at h

/-! ## Concrete records used in closed instances -/

/-- A raw market record with every field absent. -/
def rawMarketBlank : RawMarket :=
  { id := none, name := none, status := none, inPlay := none, matched := none,
    numWinners := none, start := none, mtype := none, eventTypeId := none,
    event := none, competition := none, runners := none }

def rawEventE1 : RawEvent :=
  { id := some "E1", name := some "Alpha v Beta", venue := none, openDate := none }

def rawCompC1 : RawCompetition := { id := some "C1", name := some "Cup" }

/-- First record of event E1: no competition info, no runners. -/
def mkC3first : RawMarket :=
  { rawMarketBlank with
      event := some rawEventE1 }

/-- Second record of event E1: full competition info. -/
def mkC3second : RawMarket :=
  { rawMarketBlank with
      event := some rawEventE1
      competition := some rawCompC1 }

/-- A well-formed record of event E1 carrying competition info and runners. -/
def mkC3W : RawMarket :=
  { rawMarketBlank with
      name := some "Match Odds"
      event := some rawEventE1
      competition := some rawCompC1
      runners := some [] }

/-! ## Claim C3 -/

/-- Claim C3, counterexample.  The claim says a Match whose upstream records
carry competition info on some market of the event belongs to exactly one
Competition.  With two records for event E1 — the first without competition
info, the second with id C1 and name Cup — the code only consults the first
record at match creation: competition C1 is registered but its member list
stays empty, so the E1 match belongs to zero competitions (and, although
counted in `matchCount`, it appears nowhere in the returned tree). -/
theorem claim_C3_counterexample :
    transformSportData lcAsc (.result [mkC3first, mkC3second]) "cricket" 0 =
      .success "cricket" [{ id := "C1", name := "Cup", «matches» := [] }] 1 0 ∧
    countInCompetitions "E1"
      (transformSportData lcAsc (.result [mkC3first, mkC3second]) "cricket" 0).competitionsOf = 0 ∧
    eventIdOf mkC3second = some "E1" ∧
    compIdOf mkC3second = some "C1" ∧
    compNameOf mkC3second = some "Cup" := by
  decide

/-- Claim C3 (amended): in `transformSportData`, every event id occurs in at
most one competition of the output (never in two); it occurs in exactly one
when the FIRST market record of that event carries both a competition id and
a competition name; every match listed under a competition points back at it
through its `competitionId` field; and `matchCount` counts every distinct
event id, including events whose match ended up in no competition.
Competition membership is decided solely by the first record of each event:
competition info appearing only on later records of the event is ignored. -/
theorem claim_C3_amended (lc : String → String → Bool) (ms : List RawMarket)
    (sport : String) (now : Nat) (e : String) (mk : RawMarket)
    (cid cname : String) (c : Competition) (m : SMatch) :
    countInCompetitions e
      (transformSportData lc (.result ms) sport now).competitionsOf ≤ 1 ∧
    (ms.find? (fun x => decide (eventIdOf x = some e)) = some mk →
      compIdOf mk = some cid → compNameOf mk = some cname →
      countInCompetitions e
        (transformSportData lc (.result ms) sport now).competitionsOf = 1) ∧
    (c ∈ (transformSportData lc (.result ms) sport now).competitionsOf →
      m ∈ c.«matches» → m.competitionId = some c.id) ∧
    (transformSportData lc (.result ms) sport now).matchCountOf =
      some ((ms.filterMap eventIdOf).dedup.length) := by
  have hinv : TInv (ms.foldl (tstep sport) { «matches» := [], comps := [] }) :=
    tinv_fold sport ms _ tinv_init
  refine ⟨?_, ?_, ?_, ?_⟩
  · rw [countInCompetitions_final]
    exact hinv.once e
  · intro h1 h2 h3
    rw [countInCompetitions_final]
    exact fold_first_market sport ms _ e mk cid cname tinv_init rfl h1 h2 h3
  · intro hc hm
    rw [transformSportData_result] at hc
    simp only [SportResult.competitionsOf] at hc
    have hc2 := (sortBy_perm (fun a b : Competition => lc a.name b.name) _).mem_iff.mp hc
    obtain ⟨p, hp, hcp⟩ := List.mem_map.mp hc2
    subst hcp
    simp only at hm
    obtain ⟨mid, hmid, hml⟩ := List.mem_filterMap.mp hm
    obtain ⟨m0, hl0, hcid0⟩ := hinv.memlookup p hp mid hmid
    rw [hl0] at hml
    obtain rfl : m0 = m := by injection hml
    have hkey : (p.2 : CompRec).id = p.1 := hinv.compkey p hp
    simp only
    rw [hkey]
    exact hcid0
  · rw [transformSportData_result]
    simp only [SportResult.matchCountOf, Option.some.injEq]
    exact fold_matches_length sport ms

/-- Claim C3, witness: on a single well-formed record (event E1, competition
C1 with a name, runners present) the amended statement is realised with its
hypotheses discharged: E1 lies in exactly one competition and is counted. -/
theorem claim_C3_amended_witness :
    countInCompetitions "E1"
      (transformSportData lcAsc (.result [mkC3W]) "cricket" 0).competitionsOf = 1 ∧
    (transformSportData lcAsc (.result [mkC3W]) "cricket" 0).matchCountOf = some 1 := by
  have h := claim_C3_amended lcAsc [mkC3W] "cricket" 0 "E1" mkC3W "C1" "Cup"
    { id := "", name := "", «matches» := [] }
    { id := "", name := none, venue := none, startTime := none, inPlay := false,
      sport := "", competitionId := none, competition := none, markets := [] }
  refine ⟨h.2.1 (by decide) (by decide) (by decide), ?_⟩
  rw [h.2.2.2]
  decide

/-! ## Claim C8 -/

/-- Claim C8: a market record lacking a `runners` field transforms to `null`,
and every market found inside any match of a transformed sport payload is the
transform of some input record that does have `runners` — records without
`runners` contribute nothing to any match's market list, and no null entry
ever appears there (market lists only contain transformed markets by
construction). -/
theorem claim_C8 (lc : String → String → Bool) (ms : List RawMarket)
    (sport : String) (now : Nat) (mk0 : RawMarket) (c : Competition)
    (m : SMatch) (mkt : Market) :
    (mk0.runners = none → transformMarket mk0 = none) ∧
    (c ∈ (transformSportData lc (.result ms) sport now).competitionsOf →
      m ∈ c.«matches» → mkt ∈ m.markets →
      ∃ rm, rm ∈ ms ∧ rm.runners ≠ none ∧ transformMarket rm = some mkt) := by
  constructor
  · intro h
    rw [transformMarket, h]
  · intro hc hm hmkt
    rw [transformSportData_result] at hc
    simp only [SportResult.competitionsOf] at hc
    have hc2 := (sortBy_perm (fun a b : Competition => lc a.name b.name) _).mem_iff.mp hc
    obtain ⟨p, hp, hcp⟩ := List.mem_map.mp hc2
    subst hcp
    simp only at hm
    obtain ⟨mid, hmid, hml⟩ := List.mem_filterMap.mp hm
    have hmem : (mid, m) ∈ (ms.foldl (tstep sport) { «matches» := [], comps := [] }).«matches» :=
      alookup_mem hml
    have hmf : MarketsFrom ms (ms.foldl (tstep sport) { «matches» := [], comps := [] }) :=
      marketsFrom_fold ms sport ms _ (fun x hx => hx) (by intro p hp; simp at hp)
    obtain ⟨rm, hrm, htr⟩ := hmf (mid, m) hmem mkt hmkt
    exact ⟨rm, hrm, transformMarket_runners_ne htr, htr⟩

/-- The transformed market produced from `mkC3W`. -/
def mktC3W : Market :=
  { id := none
    name := some "Match Odds"
    status := none
    inPlay := false
    totalMatched := none
    numWinners := none
    start := none
    marketType := none
    sport := "unknown"
    runners := [] }

/-- The match produced for event E1 from `mkC3W`. -/
def smC3W : SMatch :=
  { id := "E1"
    name := some "Alpha v Beta"
    venue := none
    startTime := none
    inPlay := false
    sport := "cricket"
    competitionId := some "C1"
    competition := some "Cup"
    markets := [mktC3W] }

/-- The competition produced from `mkC3W`. -/
def compC3W : Competition := { id := "C1", name := "Cup", «matches» := [smC3W] }

/-- Claim C8, witness: a record without `runners` maps to `null`, and on a
payload with one well-formed record the single market inside the single match
of competition C1 traces back to an input record with `runners`. -/
theorem claim_C8_witness :
    transformMarket rawMarketBlank = none ∧
    (∃ rm, rm ∈ [mkC3W] ∧ rm.runners ≠ none ∧ transformMarket rm = some mktC3W) := by
  have h := claim_C8 lcAsc [mkC3W] "cricket" 0 rawMarketBlank compC3W smC3W mktC3W
  exact ⟨h.1 rfl, h.2 (by decide) (by decide) (by decide)⟩

/-! ## Claim C2 -/

/-- A raw market named with two bucket substrings. -/
def mkC2ou : RawMarket :=
  { rawMarketBlank with
      name := some "Over/Under Set"
      runners := some [] }

/-- A raw market named exactly Tied Match. -/
def mkC2tied : RawMarket :=
  { rawMarketBlank with
      name := some "Tied Match"
      runners := some [] }

/-- Claim C2, counterexample.  The claim says every transformed market
appears in at most one bucket of `groupedMarkets`.  A single market named
"Over/Under Set" is placed in BOTH `overUnderMarkets` (substring
"Over/Under") and `setMarkets` (substring "Set"): the three substring
buckets are independent filters, not mutually exclusive ones. -/
theorem claim_C2_counterexample :
    ((transformEventData (.result [mkC2ou]) "cricket" 0).marketsOf.map
      List.length = some 1) ∧
    ((transformEventData (.result [mkC2ou]) "cricket" 0).groupedOf.map
      (fun g => (g.overUnderMarkets.map Market.name, g.setMarkets.map Market.name)) =
      some ([some "Over/Under Set"], [some "Over/Under Set"])) := by
  decide

/-- Bool check used by the amended claim C2: no market named exactly
"Tied Match" occurs in any of the four listed buckets. -/
def noTiedIn (g : GroupedMarkets) : Bool :=
  (g.overUnderMarkets ++ g.setMarkets ++ g.gameMarkets ++ g.otherMarkets).all
    (fun m => !(m.name == some "Tied Match"))

/-- Lift of `noTiedIn` to a transform result (trivially true on failure). -/
def noTiedGrouped : EventResult → Bool
  | .failure _ _ => true
  | .success _ _ _ g _ => noTiedIn g

/-- Claim C2 (amended): the exact-match selections and the residual bucket
exclude each other as the claim states — in particular a market named
exactly "Tied Match" never appears in `overUnderMarkets`, `setMarkets`,
`gameMarkets`, or `otherMarkets` — but the three substring buckets are not
mutually exclusive among themselves: a market whose name contains more than
one of the substrings "Over/Under", "Set", "Game" appears in every matching
bucket. -/
theorem claim_C2_amended (data : RawData) (sportName : String) (now : Nat) :
    noTiedGrouped (transformEventData data sportName now) = true := by
  cases data with
  | noData => rfl
  | noResult => rfl
  | badResult => rfl
  | result ms =>
    simp only [transformEventData, noTiedGrouped, noTiedIn]
    rw [List.all_eq_true]
    intro m hm
    simp only [List.mem_append] at hm
    have hgoal : m.name ≠ some "Tied Match" → (!(m.name == some "Tied Match")) = true := by
      intro h
      simpa using h
    rcases hm with ((hm | hm) | hm) | hm
    · refine hgoal ?_
      intro heq
      have hp := (List.mem_filter.mp hm).2
      simp only [nameIncludes, heq] at hp
      exact absurd hp (by decide)
    · refine hgoal ?_
      intro heq
      have hp := (List.mem_filter.mp hm).2
      simp only [nameIncludes, heq] at hp
      exact absurd hp (by decide)
    · refine hgoal ?_
      intro heq
      have hp := (List.mem_filter.mp hm).2
      simp only [nameIncludes, heq] at hp
      exact absurd hp (by decide)
    · refine hgoal ?_
      intro heq
      have hp := (List.mem_filter.mp hm).2
      simp [heq] at hp

/-! ## Claim C1 -/

/-- A recognisably distinct payload sitting in the sport cache. -/
def cachedC1 : SportResult := .failure "cached" "cricket"

/-- A sport cache holding a fresh entry for the key cricket at time 0. -/
def c1Cache : SportCache := [("cricket", { data := some cachedC1, timestamp := 0 })]

/-- Claim C1, counterexample.  The claim says a subscription tick consults
the cache first and, on a fresh entry, pushes the cached payload without
calling upstream.  With a cache entry for cricket that the REST layer's own
freshness test (`sportCacheHit`) accepts at time 1000, the tick nevertheless
performs the upstream fetch, pushes the freshly transformed payload (which
differs from the cached one), and leaves both caches untouched: the socket
tick closures never read or write the caches. -/
theorem claim_C1_counterexample :
    sportCacheHit c1Cache "cricket" 1000 = some cachedC1 ∧
    sportTick lcAsc "cricket" 1000 (c1Cache, initialEventCache) (some (.result [])) =
      ((c1Cache, initialEventCache),
        [SockEffect.fetchUpstream (sportFetchURL "4"),
         SockEffect.emitSport (.success "cricket" [] 0 1000)]) ∧
    (SportResult.success "cricket" [] 0 1000 ≠ cachedC1) := by
  decide

/-- Claim C1 (amended): every tick of a sport or event subscription invokes
the upstream client unconditionally — the caches are neither consulted (the
emitted effects do not depend on the cache state) nor updated (the cache
state is passed through unchanged); on a null fetch nothing is pushed, and
on a successful fetch the freshly transformed payload is pushed.  The two
caches serve only the REST endpoints. -/
theorem claim_C1_amended (lc : String → String → Bool)
    (sportName eventId : String) (now : Nat)
    (caches : SportCache × EventCache) (fr : Option RawData) (raw : RawData) :
    (sportTick lc sportName now caches fr).1 = caches ∧
    SockEffect.fetchUpstream (sportFetchURL (getSportTypeId sportName)) ∈
      (sportTick lc sportName now caches fr).2 ∧
    (fr = none → (sportTick lc sportName now caches fr).2 =
      [SockEffect.fetchUpstream (sportFetchURL (getSportTypeId sportName))]) ∧
    (fr = some raw → SockEffect.emitSport (transformSportData lc raw sportName now) ∈
      (sportTick lc sportName now caches fr).2) ∧
    (eventTick sportName eventId now caches fr).1 = caches ∧
    SockEffect.fetchUpstream (eventFetchURL (getSportTypeId sportName) eventId) ∈
      (eventTick sportName eventId now caches fr).2 ∧
    (fr = none → (eventTick sportName eventId now caches fr).2 =
      [SockEffect.fetchUpstream (eventFetchURL (getSportTypeId sportName) eventId)]) ∧
    (fr = some raw → SockEffect.emitEvent (transformEventData raw sportName now) ∈
      (eventTick sportName eventId now caches fr).2) := by
  cases fr with
  | none =>
    refine ⟨rfl, ?_, fun _ => rfl, ?_, rfl, ?_, fun _ => rfl, ?_⟩
    · simp [sportTick]
    · intro h; cases h
    · simp [eventTick]
    · intro h; cases h
  | some raw0 =>
    refine ⟨rfl, ?_, ?_, ?_, rfl, ?_, ?_, ?_⟩
    · simp [sportTick]
    · intro h; cases h
    · intro h
      obtain rfl : raw0 = raw := by injection h
      simp [sportTick]
    · simp [eventTick]
    · intro h; cases h
    · intro h
      obtain rfl : raw0 = raw := by injection h
      simp [eventTick]

/-- Claim C1, witness: concrete ticks at time 5 — a failed fetch produces
only the fetch effect; a successful fetch additionally pushes the transformed
payload; in both lanes. -/
theorem claim_C1_amended_witness :
    (sportTick lcAsc "cricket" 5 (initialSportsCache, initialEventCache) none).2 =
      [SockEffect.fetchUpstream (sportFetchURL (getSportTypeId "cricket"))] ∧
    SockEffect.emitSport (transformSportData lcAsc (.result []) "cricket" 5) ∈
      (sportTick lcAsc "cricket" 5 (initialSportsCache, initialEventCache)
        (some (.result []))).2 ∧
    (eventTick "cricket" "E9" 5 (initialSportsCache, initialEventCache) none).2 =
      [SockEffect.fetchUpstream (eventFetchURL (getSportTypeId "cricket") "E9")] ∧
    SockEffect.emitEvent (transformEventData (.result []) "cricket" 5) ∈
      (eventTick "cricket" "E9" 5 (initialSportsCache, initialEventCache)
        (some (.result []))).2 := by
  refine ⟨?_, ?_, ?_, ?_⟩
  · exact (claim_C1_amended lcAsc "cricket" "E9" 5 _ none (.result [])).2.2.1 rfl
  · exact (claim_C1_amended lcAsc "cricket" "E9" 5 _ (some (.result []))
      (.result [])).2.2.2.1 rfl
  · exact (claim_C1_amended lcAsc "cricket" "E9" 5 _ none (.result [])).2.2.2.2.2.2.1 rfl
  · exact (claim_C1_amended lcAsc "cricket" "E9" 5 _ (some (.result []))
      (.result [])).2.2.2.2.2.2.2 rfl

/-! ## Claim C4 -/

/-- Claim C4 evaluated at the failing schedule.  Each `subscribe_sport`
handler invocation is two atomic segments around its awaited initial fetch:
`clearSeg` (clear the existing interval) then `armSeg` (create the new
interval).  When a second subscribe event is dispatched while the first
handler is suspended at the await, the schedule is
[clearSeg, clearSeg, armSeg, armSeg]: both clears run before either timer
exists, so BOTH timers end up live (active = [0, 1]) while the closure
variable only remembers the second — contradicting the claim that at most
one sport-lane timer is ever active.  The strictly sequential schedule
[clearSeg, armSeg, clearSeg, armSeg] does leave exactly one. -/
theorem claim_C4_bug :
    (runSubs [.clearSeg, .clearSeg, .armSeg, .armSeg]).active = [0, 1] ∧
    (runSubs [.clearSeg, .clearSeg, .armSeg, .armSeg]).intervalVar = some 1 ∧
    (runSubs [.clearSeg, .armSeg, .clearSeg, .armSeg]).active = [1] := by
  decide

/-! ## Claim C7 -/

/-- Claim C7: `transformSportData` is total and never lets an exception
escape: absent `data` or `data.result` yields the structured failure with
message "Invalid data format" and the sport name; an exception raised inside
the body (`transformSportTry` returning an error) is caught and converted to
the structured failure carrying the message; and every result — success or
failure — carries the given sport name. -/
theorem claim_C7 (lc : String → String → Bool) (data : RawData)
    (sportName : String) (now : Nat) (msg : String) :
    ((data = .noData ∨ data = .noResult) →
      transformSportData lc data sportName now =
        .failure "Invalid data format" sportName) ∧
    (transformSportTry lc data sportName now = .error msg →
      transformSportData lc data sportName now =
        .failure ("Error transforming " ++ sportName ++ " data: " ++ msg) sportName) ∧
    (transformSportData lc data sportName now).sportOf = sportName := by
  refine ⟨?_, ?_, ?_⟩
  · rintro (rfl | rfl) <;> rfl
  · intro h
    cases data with
    | noData => simp [transformSportTry] at h
    | noResult => simp [transformSportTry] at h
    | badResult =>
      simp only [transformSportTry, Except.error.injEq] at h
      rw [← h]
      rfl
    | result ms => simp [transformSportTry] at h
  · cases data <;>
      simp [transformSportData, transformSportTry, transformSportCore,
        SportResult.sportOf]

/-- Claim C7, witness: the three failure-shape conclusions at concrete
inputs — missing data, a throwing body, and a well-formed payload. -/
theorem claim_C7_witness :
    transformSportData lcAsc .noData "cricket" 0 =
      .failure "Invalid data format" "cricket" ∧
    transformSportData lcAsc .badResult "cricket" 0 =
      .failure ("Error transforming " ++ "cricket" ++ " data: " ++
        "data.result.forEach is not a function") "cricket" ∧
    (transformSportData lcAsc (.result []) "cricket" 0).sportOf = "cricket" := by
  refine ⟨?_, ?_, ?_⟩
  · exact (claim_C7 lcAsc .noData "cricket" 0 "").1 (Or.inl rfl)
  · exact (claim_C7 lcAsc .badResult "cricket" 0
      "data.result.forEach is not a function").2.1 rfl
  · exact (claim_C7 lcAsc (.result []) "cricket" 0 "").2.2

/-! ## Claim C9 -/

/-- Claim C9: for a sport name whose lowercase form is none of cricket,
football, tennis, `getSportTypeId` falls back to the cricket type code "4",
and the REST sport endpoint (on the initial cache, which never yields a hit)
fetches the cricket-typed upstream URL and serves the transformed payload
rather than failing with a not-found error. -/
theorem claim_C9 (s : String) (lc : String → String → Bool) (now : Nat)
    (raw : RawData)
    (h1 : jsToLower s ≠ "cricket") (h2 : jsToLower s ≠ "football")
    (h3 : jsToLower s ≠ "tennis") :
    getSportTypeId s = "4" ∧
    (getSportHandler lc initialSportsCache now s (some raw)).urlFetched =
      some (sportFetchURL "4") ∧
    (getSportHandler lc initialSportsCache now s (some raw)).response =
      .ok (transformSportData lc raw s now) := by
  have ht : getSportTypeId s = "4" := by
    simp [getSportTypeId, SPORT_TYPE_IDS, h1, h2, h3]
  have hhit : sportCacheHit initialSportsCache (jsToLower s) now = none := by
    simp only [sportCacheHit, initialSportsCache, alookup]
    by_cases hc : "cricket" = jsToLower s
    · simp [hc]
    · simp only [if_neg hc]
      by_cases hf : "football" = jsToLower s
      · simp [hf]
      · simp only [if_neg hf]
        by_cases htn : "tennis" = jsToLower s
        · simp [htn]
        · simp [htn]
  refine ⟨ht, ?_, ?_⟩ <;> simp [getSportHandler, hhit, ht]

/-- Claim C9, witness: the unknown sport name baseball resolves to the
cricket type code and is served through the cricket-typed URL. -/
theorem claim_C9_witness :
    getSportTypeId "baseball" = "4" ∧
    (getSportHandler lcAsc initialSportsCache 0 "baseball" (some .noData)).urlFetched =
      some (sportFetchURL "4") ∧
    (getSportHandler lcAsc initialSportsCache 0 "baseball" (some .noData)).response =
      .ok (transformSportData lcAsc .noData "baseball" 0) :=
  claim_C9 "baseball" lcAsc 0 .noData (by decide) (by decide) (by decide)

/-! ## Claim C5 -/

/-- Claim C5: on the REST sport endpoint, a request finding a cache entry of
age strictly below the 5-minute window is answered from the cache with no
upstream call; hence, starting from a cold cache, the first call fetches and
serves the transformed payload, a second call within the window performs no
fetch and returns the identical payload leaving the cache unchanged, and a
third call at or after window expiry fetches again. -/
theorem claim_C5 (lc : String → String → Bool) (c : SportCache)
    (sportName : String) (raw : RawData) (t0 t1 t2 : Nat)
    (fr1 fr2 : Option RawData)
    (h0 : sportCacheHit c (jsToLower sportName) t0 = none)
    (h1 : t1 - t0 < CACHE_TTL)
    (h2 : CACHE_TTL ≤ t2 - t0) :
    (getSportHandler lc c t0 sportName (some raw)).fetched = true ∧
    (getSportHandler lc c t0 sportName (some raw)).response =
      .ok (transformSportData lc raw sportName t0) ∧
    (getSportHandler lc (getSportHandler lc c t0 sportName (some raw)).cacheAfter
      t1 sportName fr1).fetched = false ∧
    (getSportHandler lc (getSportHandler lc c t0 sportName (some raw)).cacheAfter
      t1 sportName fr1).response =
      (getSportHandler lc c t0 sportName (some raw)).response ∧
    (getSportHandler lc (getSportHandler lc c t0 sportName (some raw)).cacheAfter
      t1 sportName fr1).cacheAfter =
      (getSportHandler lc c t0 sportName (some raw)).cacheAfter ∧
    (getSportHandler lc
      (getSportHandler lc (getSportHandler lc c t0 sportName (some raw)).cacheAfter
        t1 sportName fr1).cacheAfter
      t2 sportName fr2).fetched = true := by
  have e0c : (getSportHandler lc c t0 sportName (some raw)).cacheAfter =
      aset c (jsToLower sportName)
        { data := some (transformSportData lc raw sportName t0), timestamp := t0 } := by
    simp [getSportHandler, h0]
  have e0r : (getSportHandler lc c t0 sportName (some raw)).response =
      .ok (transformSportData lc raw sportName t0) := by
    simp [getSportHandler, h0]
  have hhit1 : sportCacheHit
      (aset c (jsToLower sportName)
        { data := some (transformSportData lc raw sportName t0), timestamp := t0 })
      (jsToLower sportName) t1 = some (transformSportData lc raw sportName t0) := by
    simp [sportCacheHit, alookup_aset_self, h1]
  have hhit2 : sportCacheHit
      (aset c (jsToLower sportName)
        { data := some (transformSportData lc raw sportName t0), timestamp := t0 })
      (jsToLower sportName) t2 = none := by
    simp only [sportCacheHit, alookup_aset_self]
    rw [if_neg (Nat.not_lt.mpr h2)]
  have e1c : (getSportHandler lc
      (aset c (jsToLower sportName)
        { data := some (transformSportData lc raw sportName t0), timestamp := t0 })
      t1 sportName fr1).cacheAfter =
      aset c (jsToLower sportName)
        { data := some (transformSportData lc raw sportName t0), timestamp := t0 } := by
    simp [getSportHandler, hhit1]
  refine ⟨?_, e0r, ?_, ?_, ?_, ?_⟩
  · simp [getSportHandler, h0]
  · rw [e0c]
    simp [getSportHandler, hhit1]
  · rw [e0c, e0r]
    simp [getSportHandler, hhit1]
  · rw [e0c, e1c]
  · rw [e0c, e1c]
    cases fr2 <;> simp [getSportHandler, hhit2]

/-- Claim C5, witness: the three-call scenario on the initial cold cache for
cricket at times 0, 1 and the exact window boundary. -/
theorem claim_C5_witness :
    sportCacheHit initialSportsCache (jsToLower "cricket") 0 = none ∧
    (1 - 0 < CACHE_TTL) ∧ (CACHE_TTL ≤ CACHE_TTL - 0) ∧
    ((getSportHandler lcAsc initialSportsCache 0 "cricket" (some (.result []))).fetched = true ∧
     (getSportHandler lcAsc initialSportsCache 0 "cricket" (some (.result []))).response =
       .ok (transformSportData lcAsc (.result []) "cricket" 0) ∧
     (getSportHandler lcAsc
       (getSportHandler lcAsc initialSportsCache 0 "cricket" (some (.result []))).cacheAfter
       1 "cricket" none).fetched = false ∧
     (getSportHandler lcAsc
       (getSportHandler lcAsc initialSportsCache 0 "cricket" (some (.result []))).cacheAfter
       1 "cricket" none).response =
       (getSportHandler lcAsc initialSportsCache 0 "cricket" (some (.result []))).response ∧
     (getSportHandler lcAsc
       (getSportHandler lcAsc initialSportsCache 0 "cricket" (some (.result []))).cacheAfter
       1 "cricket" none).cacheAfter =
       (getSportHandler lcAsc initialSportsCache 0 "cricket" (some (.result []))).cacheAfter ∧
     (getSportHandler lcAsc
       (getSportHandler lcAsc
         (getSportHandler lcAsc initialSportsCache 0 "cricket" (some (.result []))).cacheAfter
         1 "cricket" none).cacheAfter
       CACHE_TTL "cricket" none).fetched = true) :=
  ⟨by decide, by decide, by decide,
    claim_C5 lcAsc initialSportsCache "cricket" (.result []) 0 1 CACHE_TTL none none
      (by decide) (by decide) (by decide)⟩

/-! ## Claim C10 -/

/-- Claim C10: on both REST endpoints, when the fetch returns a payload, the
transformed result is written to the cache with the current timestamp even
when it is a failure shape, and a fresh cached payload — failure results
included — is served as-is with no fetch to any request within the window;
only a fetch returning null skips the cache write. -/
theorem claim_C10 (lc : String → String → Bool) (sc : SportCache)
    (ec : EventCache) (sportName eventId : String) (raw : RawData)
    (now now2 : Nat) (fr2 : Option RawData) (P : SportResult) (Q : EventResult) :
    (sportCacheHit sc (jsToLower sportName) now = none →
      (transformSportData lc raw sportName now).isFailure = true →
      (getSportHandler lc sc now sportName (some raw)).cacheAfter =
        aset sc (jsToLower sportName)
          { data := some (transformSportData lc raw sportName now), timestamp := now } ∧
      (getSportHandler lc sc now sportName (some raw)).response =
        .ok (transformSportData lc raw sportName now)) ∧
    (now2 - now < CACHE_TTL →
      getSportHandler lc
        (aset sc (jsToLower sportName) { data := some P, timestamp := now })
        now2 sportName fr2 =
        { response := .ok P, fetched := false, urlFetched := none,
          cacheAfter := aset sc (jsToLower sportName) { data := some P, timestamp := now } }) ∧
    ((getSportHandler lc sc now sportName none).cacheAfter = sc) ∧
    (eventCacheHit ec (sportName ++ "_" ++ eventId) now = none →
      (transformEventData raw sportName now).isFailure = true →
      (getEventHandler ec now sportName eventId (some raw)).cacheAfter =
        aset ec (sportName ++ "_" ++ eventId)
          { data := some (transformEventData raw sportName now), timestamp := now } ∧
      (getEventHandler ec now sportName eventId (some raw)).response =
        .ok (transformEventData raw sportName now)) ∧
    (now2 - now < EVENT_CACHE_TTL →
      getEventHandler
        (aset ec (sportName ++ "_" ++ eventId) { data := some Q, timestamp := now })
        now2 sportName eventId fr2 =
        { response := .ok Q, fetched := false, urlFetched := none,
          cacheAfter := aset ec (sportName ++ "_" ++ eventId) { data := some Q, timestamp := now } }) ∧
    ((getEventHandler ec now sportName eventId none).cacheAfter = ec) := by
  refine ⟨?_, ?_, ?_, ?_, ?_, ?_⟩
  · intro hmiss _
    constructor <;> simp [getSportHandler, hmiss]
  · intro hlt
    have hhit : sportCacheHit
        (aset sc (jsToLower sportName) { data := some P, timestamp := now })
        (jsToLower sportName) now2 = some P := by
      simp [sportCacheHit, alookup_aset_self, hlt]
    simp [getSportHandler, hhit]
  · cases hh : sportCacheHit sc (jsToLower sportName) now <;>
      simp [getSportHandler, hh]
  · intro hmiss _
    constructor <;> simp [getEventHandler, hmiss]
  · intro hlt
    have hhit : eventCacheHit
        (aset ec (sportName ++ "_" ++ eventId) { data := some Q, timestamp := now })
        (sportName ++ "_" ++ eventId) now2 = some Q := by
      simp [eventCacheHit, alookup_aset_self, hlt]
    simp [getEventHandler, hhit]
  · cases hh : eventCacheHit ec (sportName ++ "_" ++ eventId) now <;>
      simp [getEventHandler, hh]

/-- Claim C10, witness: a payload with a falsy `result` transforms to a
failure shape, which both endpoints cache at the current time and then serve
from cache on a request one millisecond later; a null fetch writes nothing. -/
theorem claim_C10_witness :
    (getSportHandler lcAsc initialSportsCache 0 "cricket" (some .noResult)).cacheAfter =
      aset initialSportsCache (jsToLower "cricket")
        { data := some (transformSportData lcAsc .noResult "cricket" 0), timestamp := 0 } ∧
    getSportHandler lcAsc
      (aset initialSportsCache (jsToLower "cricket")
        { data := some (SportResult.failure "Invalid data format" "cricket"), timestamp := 0 })
      1 "cricket" none =
      { response := .ok (SportResult.failure "Invalid data format" "cricket"),
        fetched := false, urlFetched := none,
        cacheAfter := aset initialSportsCache (jsToLower "cricket")
          { data := some (SportResult.failure "Invalid data format" "cricket"), timestamp := 0 } } ∧
    (getSportHandler lcAsc initialSportsCache 0 "cricket" none).cacheAfter =
      initialSportsCache ∧
    (getEventHandler initialEventCache 0 "cricket" "E7" (some .noResult)).cacheAfter =
      aset initialEventCache ("cricket" ++ "_" ++ "E7")
        { data := some (transformEventData .noResult "cricket" 0), timestamp := 0 } ∧
    getEventHandler
      (aset initialEventCache ("cricket" ++ "_" ++ "E7")
        { data := some (EventResult.failure "Invalid event data format" "cricket"), timestamp := 0 })
      1 "cricket" "E7" none =
      { response := .ok (EventResult.failure "Invalid event data format" "cricket"),
        fetched := false, urlFetched := none,
        cacheAfter := aset initialEventCache ("cricket" ++ "_" ++ "E7")
          { data := some (EventResult.failure "Invalid event data format" "cricket"), timestamp := 0 } } ∧
    (getEventHandler initialEventCache 0 "cricket" "E7" none).cacheAfter =
      initialEventCache := by
  have h := claim_C10 lcAsc initialSportsCache initialEventCache "cricket" "E7"
    .noResult 0 1 none (SportResult.failure "Invalid data format" "cricket")
    (EventResult.failure "Invalid event data format" "cricket")
  exact ⟨(h.1 (by decide) (by decide)).1, h.2.1 (by decide), h.2.2.1,
    (h.2.2.2.1 (by decide) (by decide)).1, h.2.2.2.2.1 (by decide), h.2.2.2.2.2⟩

end SBT